import Mathlib

/-!
MakerHub: rank calculator, session store and persistence.

A shallow embedding of the core of `src/App.jsx`: the pure helper `computeRank`,
the mutations of the `App` component (written as functions from the current
state to the next one) and the load/save pair that mirrors the state to
`localStorage`.

Conventions of the embedding.

* JavaScript numbers that are counters (points, likes, votes, quantities, prices,
  thresholds) are `Int`: every value the program produces there is an integer
  far below `2^53`, where double arithmetic is exact.
* The one place where a non-integer double appears is the progress percentage
  `Math.round((into / span) * 100)`.  There each operation is rounded to the
  nearest double (ties to even), as IEEE 754 prescribes, by `fl`.
* A JavaScript object used as a map (`badges`, `enrolled`) is an association
  list of its own properties, in insertion order with one entry per key; the
  properties it inherits from `Object.prototype` are listed in
  `OBJECT_PROTOTYPE_KEYS`.
* `Date.now()` and the answer to `window.confirm` are inputs of the operation
  that reads them; the text passed to `alert` is returned next to the new state.
-/

namespace MakerHub

/-! ## Double precision rounding -/

/-- Round a rational to the nearest integer, ties to the even neighbour. -/
def roundHalfEven (x : ℚ) : ℤ :=
  let f := ⌊x⌋
  let r := x - f
  if r < 1 / 2 then f
  else if 1 / 2 < r then f + 1
  else if f % 2 = 0 then f else f + 1

/-- The double nearest to the rational `x` (round to nearest, ties to even, 53
significant bits).  The exponent range of doubles is not bounded here: neither
subnormal numbers nor overflow to `Infinity` arise from the values `computeRank`
works with short of `points` near `1.7e306`, and there the percentage is already
capped at 100. -/
def fl (x : ℚ) : ℚ :=
  if x = 0 then 0
  else
    let e := Int.log 2 |x|
    let u := (2 : ℚ) ^ (e - 52)
    roundHalfEven (x / u) * u

/-- The function `Math.round`: the nearest integer, ties towards positive infinity. -/
def jsRound (y : ℚ) : ℤ := ⌊y + 1 / 2⌋

/-! ## Catalogs -/

/-- An entry of `RANKS`. -/
structure RankTier where
  key : String
  name : String
  threshold : Int
  deriving DecidableEq

/-- Ranks and thresholds. -/
def RANKS : List RankTier :=
  [ { key := "explorer", name := "Explorer", threshold := 0 },
    { key := "tinkerer", name := "Tinkerer", threshold := 100 },
    { key := "builder", name := "Builder", threshold := 300 },
    { key := "innovator", name := "Innovator", threshold := 700 },
    { key := "visionary", name := "Visionary", threshold := 1200 } ]

/-- An entry of `SAMPLE_COURSES`; the fields `level`, `lessons` and `blurb` are
only displayed and are left out. -/
structure Course where
  id : String
  title : String
  points : Int
  deriving DecidableEq

def SAMPLE_COURSES : List Course :=
  [ { id := "c1", title := "Arduino Basics", points := 80 },
    { id := "c2", title := "Robotics 101", points := 120 },
    { id := "c3", title := "Web for Makers", points := 150 },
    { id := "c4", title := "AI for Students", points := 180 } ]

/-- An entry of `SAMPLE_PRODUCTS`; the field `tag` is only displayed and is left
out. -/
structure Product where
  id : String
  name : String
  price : Int
  deriving DecidableEq

def SAMPLE_PRODUCTS : List Product :=
  [ { id := "p1", name := "ESP8266 NodeMCU", price := 239 },
    { id := "p2", name := "HC‑SR04 Sensor", price := 89 },
    { id := "p3", name := "L298N Motor Driver", price := 179 },
    { id := "p4", name := "Breadboard + Wires Kit", price := 149 },
    { id := "p5", name := "DHT11 Sensor", price := 79 },
    { id := "p6", name := "SG90 Micro Servo", price := 129 } ]

/-- A forum post. -/
structure Post where
  id : String
  author : String
  title : String
  body : String
  likes : Int
  deriving DecidableEq

def SAMPLE_POSTS : List Post :=
  [ { id := "f1", author := "Kiara", title := "Help with line sensor on white tiles",
      body := "My bot overshoots turns—any tips on thresholds?", likes := 6 },
    { id := "f2", author := "Aman", title := "Best budget soldering iron in India?",
      body := "I need something reliable for school projects.", likes := 9 } ]

/-- A project idea. -/
structure Idea where
  id : String
  title : String
  votes : Int
  deriving DecidableEq

def SAMPLE_IDEAS : List Idea :=
  [ { id := "i1", title := "Smart Plant Watering", votes := 15 },
    { id := "i2", title := "Accident Alert Helmet", votes := 22 },
    { id := "i3", title := "Smart Dustbin (Auto‑open)", votes := 18 } ]

/-! ## Rank calculator -/

/-- The value `computeRank` returns. -/
structure Rank where
  current : RankTier
  next : RankTier
  pct : Int

/-- The method `Array.prototype.indexOf` on the rank catalog: the first position of `r`, or
`-1` when `r` does not occur. -/
def rankIndexOf (rs : List RankTier) (r : RankTier) : Int :=
  if r ∈ rs then (rs.indexOf r : Int) else -1

/-- The helper `computeRank`: scan `RANKS` keeping the last tier whose threshold is reached,
take the tier after it (or the last one) and express the progress towards it. -/
def computeRank (points : Int) : Rank :=
  let first : RankTier := RANKS.get ⟨0, by decide⟩
  let current := RANKS.foldl (fun cur r => if points ≥ r.threshold then r else cur) first
  let nextIndex : Int := min (rankIndexOf RANKS current + 1) ((RANKS.length : Int) - 1)
  let next := RANKS.getD nextIndex.toNat current
  let into : ℚ := fl ((points : ℚ) - (current.threshold : ℚ))
  let span : Int := max 1 (next.threshold - current.threshold)
  let pct : Int := min 100 (jsRound (fl (fl (into / (span : ℚ)) * 100)))
  { current := current, next := next, pct := pct }

/-! ## Session state -/

/-- The value kept for a course in `enrolled`. -/
structure EnrollRec where
  done : Bool
  deriving DecidableEq

/-- The `profile` state: `badges` is the object `{ key: true }`. -/
structure Profile where
  name : String
  points : Int
  badges : List (String × Bool)
  deriving DecidableEq

/-- An entry of `cart`. -/
structure CartLine where
  id : String
  qty : Int
  deriving DecidableEq

/-- The six state variables of `App`. -/
structure State where
  page : String
  profile : Profile
  enrolled : List (String × EnrollRec)
  posts : List Post
  ideas : List Idea
  cart : List CartLine
  deriving DecidableEq

/-- The initial values given to `useState`. -/
def initialState : State :=
  { page := "home",
    profile := { name := "Guest Maker", points := 0, badges := [] },
    enrolled := [],
    posts := SAMPLE_POSTS,
    ideas := SAMPLE_IDEAS,
    cart := [] }

/-- Own property read `o[k]` on an object used as a map; `none` is no own property.
What a read finds further up the prototype chain is accounted for where the
program reads with a key it is handed, in `toggleEnroll`. -/
def objGet {α : Type} (o : List (String × α)) (k : String) : Option α :=
  (o.find? (fun e => e.1 = k)).map (fun e => e.2)

/-- Property write `o[k] = v`: an existing key keeps its place, a new key goes
to the end. -/
def objSet {α : Type} (o : List (String × α)) (k : String) (v : α) : List (String × α) :=
  if o.any (fun e => e.1 = k) then o.map (fun e => if e.1 = k then (k, v) else e)
  else o ++ [(k, v)]

/-- The update `addPoints(n)` queues on `profile`. -/
def addPoints (n : Int) (p : Profile) : Profile :=
  { p with points := max 0 (p.points + n) }

/-- The update `awardBadge(key)` queues on `profile`. -/
def awardBadge (key : String) (p : Profile) : Profile :=
  { p with badges := objSet p.badges key true }

/-- The `Save` button of the profile page: `setProfile((p) => ({ ...p, name }))`. -/
def setDisplayName (name : String) (s : State) : State :=
  { s with profile := { s.profile with name := name } }

/-- Navigation: `setPage(key)`. -/
def setPage (key : String) (s : State) : State :=
  { s with page := key }

/-- The names of the properties a plain object inherits from `Object.prototype`.
Each of them reads as a truthy value on every plain object: a function, or for
`__proto__` the prototype itself. -/
def OBJECT_PROTOTYPE_KEYS : List String :=
  ["constructor", "__defineGetter__", "__defineSetter__", "hasOwnProperty",
   "__lookupGetter__", "__lookupSetter__", "isPrototypeOf", "propertyIsEnumerable",
   "toString", "valueOf", "__proto__", "toLocaleString"]

/-- The mutation `toggleEnroll(courseId)`: create the record when `copy[courseId]` is
falsy, flip `done` and, when the course is now done, award the course points and
the badge.

The read `copy[courseId]` follows the prototype chain.  When `copy` has no own
record for `courseId` and `courseId` names an inherited property, the read gives
the inherited object: no record is created and `done` is written on that object,
which is none of the state variables, so `enrolled` keeps its content.  The
inherited object has no `done` until such a toggle sets it, so the flip reads it
as unset; once it is set the badge has been granted by the toggle that set it.
`Object.prototype` is taken with its standard properties: what other reads
inherit after a toggle with `__proto__` has written on it is not followed. -/
def toggleEnroll (courseId : String) (s : State) : State :=
  let copy := s.enrolled
  let inherited : Bool :=
    (objGet copy courseId).isNone && decide (courseId ∈ OBJECT_PROTOTYPE_KEYS)
  let copy :=
    if (objGet copy courseId).isNone && !inherited then objSet copy courseId { done := false }
    else copy
  let done := !((objGet copy courseId).getD { done := false }).done
  let copy := if inherited then copy else objSet copy courseId { done := done }
  let profile :=
    if done then
      let p := match SAMPLE_COURSES.find? (fun c => c.id = courseId) with
        | some course => addPoints course.points s.profile
        | none => s.profile
      awardBadge "firstCourse" p
    else s.profile
  { s with enrolled := copy, profile := profile }

/-- The mutation `handleQuiz()`, with the answer `ok` given to `window.confirm`. -/
def handleQuiz (ok : Bool) (s : State) : State × String :=
  if ok then
    ({ s with profile := awardBadge "quizWhiz" (addPoints 50 s.profile) }, "Nice! +50 pts")
  else (s, "Not quite—try the course first!")

/-- White space and line terminators, the characters `String.prototype.trim`
removes. -/
def isJsSpace (c : Char) : Bool :=
  let n := c.toNat
  n = 0x09 || n = 0x0A || n = 0x0B || n = 0x0C || n = 0x0D || n = 0x20 || n = 0xA0 ||
  n = 0x1680 || (0x2000 ≤ n && n ≤ 0x200A) || n = 0x2028 || n = 0x2029 || n = 0x202F ||
  n = 0x205F || n = 0x3000 || n = 0xFEFF

/-- The method `String.prototype.trim`. -/
def jsTrim (s : String) : String :=
  String.mk (((s.data.dropWhile isJsSpace).reverse.dropWhile isJsSpace).reverse)

/-- The mutation `addPost(title, body)`, with the reading `now` of `Date.now()`. -/
def addPost (now : Int) (title body : String) (s : State) : State × String :=
  let t := jsTrim title
  let b := jsTrim body
  if t = "" || b = "" then (s, "Please write a title and details.")
  else
    let post : Post :=
      { id := "f" ++ toString now,
        author := if s.profile.name = "" then "You" else s.profile.name,
        title := t, body := b, likes := 0 }
    ({ s with posts := post :: s.posts,
              profile := awardBadge "helper" (addPoints 20 s.profile) },
     "Posted! +20 pts")

/-- The mutation `likePost(id)`. -/
def likePost (id : String) (s : State) : State :=
  { s with posts := s.posts.map (fun p => if p.id = id then { p with likes := p.likes + 1 } else p) }

/-- The mutation `addIdea(title)`, with the reading `now` of `Date.now()`. -/
def addIdea (now : Int) (title : String) (s : State) : State × String :=
  let t := jsTrim title
  if t = "" then (s, "Please write your project idea.")
  else
    ({ s with ideas := { id := "i" ++ toString now, title := t, votes := 1 } :: s.ideas,
              profile := awardBadge "contributor" (addPoints 25 s.profile) },
     "Idea shared! +25 pts")

/-- The mutation `voteIdea(id)`. -/
def voteIdea (id : String) (s : State) : State :=
  { s with ideas := s.ideas.map (fun it => if it.id = id then { it with votes := it.votes + 1 } else it) }

/-- The updater `addToCart(pid)` passes to `setCart`. -/
def cartAdd (pid : String) (C : List CartLine) : List CartLine :=
  match C.find? (fun c => c.id = pid) with
  | some _ => C.map (fun c => if c.id = pid then { c with qty := c.qty + 1 } else c)
  | none => C ++ [{ id := pid, qty := 1 }]

/-- The mutation `addToCart(pid)`. -/
def addToCart (pid : String) (s : State) : State :=
  { s with cart := cartAdd pid s.cart,
           profile := awardBadge "shopper" (addPoints 5 s.profile) }

/-- The mutation `removeFromCart(pid)`. -/
def removeFromCart (pid : String) (s : State) : State :=
  { s with cart := s.cart.filter (fun c => c.id ≠ pid) }

/-- The memo `totalCost`, as a function of `cart`. -/
def totalCost (cart : List CartLine) : Int :=
  cart.foldl
    (fun sum item =>
      let p := SAMPLE_PRODUCTS.find? (fun x => x.id = item.id)
      sum + (match p with
        | some p => p.price * item.qty
        | none => 0))
    0

/-! ## Persistence

`JSON.stringify` and `JSON.parse` belong to the platform: the text in the
`makerhub_state` slot is described by what `JSON.parse` makes of it, and
`JSON.stringify` of a value is a text that parses back to that value. -/

/-- A parsed JSON value; every number the program stores is an integer. -/
inductive JVal where
  | null : JVal
  | bool (b : Bool) : JVal
  | num (n : Int) : JVal
  | str (s : String) : JVal
  | arr (xs : List JVal) : JVal
  | obj (kvs : List (String × JVal)) : JVal

/-- What `localStorage.getItem("makerhub_state")` finds: no entry, the empty
text, a text `JSON.parse` throws on, or a text that parses to `v`. -/
inductive Slot where
  | missing : Slot
  | empty : Slot
  | malformed : Slot
  | json (v : JVal) : Slot

/-- Truthiness of a parsed value, as `if (saved)` and `||` test it. -/
def jsTruthy : JVal → Bool
  | .null => false
  | .bool b => b
  | .num n => n ≠ 0
  | .str s => s ≠ ""
  | .arr _ => true
  | .obj _ => true

/-- The operand `saved.k` of `saved.k || fallback`: the property when it exists
and is truthy, `none` when the fallback is taken.  Reading a property of a
number, string, boolean or array gives `undefined` for the keys used here. -/
def truthyField (saved : JVal) (k : String) : Option JVal :=
  match saved with
  | .obj kvs =>
    match objGet kvs k with
    | some v => if jsTruthy v then some v else none
    | none => none
  | _ => none

def encBadge (e : String × Bool) : String × JVal := (e.1, .bool e.2)

def encProfile (p : Profile) : JVal :=
  .obj [("name", .str p.name), ("points", .num p.points), ("badges", .obj (p.badges.map encBadge))]

def encEnroll (e : String × EnrollRec) : String × JVal := (e.1, .obj [("done", .bool e.2.done)])

def encPost (p : Post) : JVal :=
  .obj [("id", .str p.id), ("author", .str p.author), ("title", .str p.title),
        ("body", .str p.body), ("likes", .num p.likes)]

def encIdea (i : Idea) : JVal :=
  .obj [("id", .str i.id), ("title", .str i.title), ("votes", .num i.votes)]

def encLine (c : CartLine) : JVal :=
  .obj [("id", .str c.id), ("qty", .num c.qty)]

/-- The value of `payload` in the save effect, as `JSON.stringify` writes it:
`{ page, profile, enrolled, posts, ideas, cart }`. -/
def encState (s : State) : JVal :=
  .obj [("page", .str s.page), ("profile", encProfile s.profile),
        ("enrolled", .obj (s.enrolled.map encEnroll)),
        ("posts", .arr (s.posts.map encPost)),
        ("ideas", .arr (s.ideas.map encIdea)),
        ("cart", .arr (s.cart.map encLine))]

/-- The save effect: `localStorage.setItem("makerhub_state", JSON.stringify(payload))`. -/
def save (s : State) : Slot := .json (encState s)

/-! The state variables of the program hold whatever value the record has.  The
readers below give the typed value a parsed value stands for; a value of another
shape has no counterpart in `State` and is read as `none`. -/

/-- Read every element of a list, or nothing when one element cannot be read. -/
def readAll {α β : Type} (read : β → Option α) : List β → Option (List α)
  | [] => some []
  | v :: vs =>
    match read v with
    | some a => (readAll read vs).map (fun as => a :: as)
    | none => none

def readBadge : String × JVal → Option (String × Bool)
  | (k, .bool b) => some (k, b)
  | _ => none

def readProfile : JVal → Option Profile
  | .obj [("name", .str n), ("points", .num p), ("badges", .obj bs)] =>
    (readAll readBadge bs).map (fun badges => { name := n, points := p, badges := badges })
  | _ => none

def readEnroll : String × JVal → Option (String × EnrollRec)
  | (k, .obj [("done", .bool d)]) => some (k, { done := d })
  | _ => none

def readEnrolled : JVal → Option (List (String × EnrollRec))
  | .obj kvs => readAll readEnroll kvs
  | _ => none

def readPost : JVal → Option Post
  | .obj [("id", .str i), ("author", .str a), ("title", .str t), ("body", .str b),
          ("likes", .num l)] =>
    some { id := i, author := a, title := t, body := b, likes := l }
  | _ => none

def readPosts : JVal → Option (List Post)
  | .arr xs => readAll readPost xs
  | _ => none

def readIdea : JVal → Option Idea
  | .obj [("id", .str i), ("title", .str t), ("votes", .num v)] =>
    some { id := i, title := t, votes := v }
  | _ => none

def readIdeas : JVal → Option (List Idea)
  | .arr xs => readAll readIdea xs
  | _ => none

def readLine : JVal → Option CartLine
  | .obj [("id", .str i), ("qty", .num q)] => some { id := i, qty := q }
  | _ => none

def readCart : JVal → Option (List CartLine)
  | .arr xs => readAll readLine xs
  | _ => none

def readPage : JVal → Option String
  | .str s => some s
  | _ => none

/-- One line `setX(saved.k || fallback)` of the load effect. -/
def loadField {α : Type} (saved : JVal) (k : String) (read : JVal → Option α) (fallback : α) :
    Option α :=
  match truthyField saved k with
  | some v => read v
  | none => some fallback

/-- The load effect, run on the state `s` the component starts with: `none` only
when the record holds a value `State` cannot express. -/
def load (slot : Slot) (s : State) : Option State :=
  match slot with
  | .missing => some s
  | .empty => some s
  | .malformed => some s
  | .json saved =>
    if jsTruthy saved then do
      let page ← loadField saved "page" readPage "home"
      let profile ← loadField saved "profile" readProfile s.profile
      let enrolled ← loadField saved "enrolled" readEnrolled []
      let posts ← loadField saved "posts" readPosts SAMPLE_POSTS
      let ideas ← loadField saved "ideas" readIdeas SAMPLE_IDEAS
      let cart ← loadField saved "cart" readCart []
      pure { page := page, profile := profile, enrolled := enrolled, posts := posts,
             ideas := ideas, cart := cart }
    else some s

/-! ## Sessions -/

/-- The keys of `links` in `TopBar`, the only arguments `setPage` is called with. -/
def PAGES : List String :=
  ["home", "learn", "community", "ideas", "shop", "blog", "profile", "about"]

/-- A user intent. -/
inductive Action where
  | setPage (key : String)
  | setDisplayName (name : String)
  | toggleEnroll (courseId : String)
  | handleQuiz (ok : Bool)
  | addPost (now : Int) (title body : String)
  | likePost (id : String)
  | addIdea (now : Int) (title : String)
  | voteIdea (id : String)
  | addToCart (pid : String)
  | removeFromCart (pid : String)

/-- Navigation only goes to a page of `PAGES`; the other intents take any input. -/
def Action.allowed : Action → Bool
  | .setPage key => key ∈ PAGES
  | _ => true

/-- The state after one intent. -/
def step (a : Action) (s : State) : State :=
  match a with
  | .setPage key => setPage key s
  | .setDisplayName name => setDisplayName name s
  | .toggleEnroll courseId => toggleEnroll courseId s
  | .handleQuiz ok => (handleQuiz ok s).1
  | .addPost now title body => (addPost now title body s).1
  | .likePost id => likePost id s
  | .addIdea now title => (addIdea now title s).1
  | .voteIdea id => voteIdea id s
  | .addToCart pid => addToCart pid s
  | .removeFromCart pid => removeFromCart pid s

/-- The states a session can be in: the initial one and those one allowed intent
after another leads to. -/
inductive Reachable : State → Prop where
  | init : Reachable initialState
  | step (a : Action) (s : State) (ha : a.allowed = true) (hs : Reachable s) :
      Reachable (step a s)


/-! ## Cart total, as specified -/

/-- The price the catalog gives for a product id, if it has that product. -/
def catalogPrice (pid : String) : Option Int :=
  (SAMPLE_PRODUCTS.map (fun p => (p.id, p.price))).lookup pid

/-- The total as the specification words it: the sum over the cart lines of
quantity times catalog price, a line of an unknown product counting 0. -/
def cartTotalSpec (cart : List CartLine) : Int :=
  (cart.map (fun line =>
    match catalogPrice line.id with
    | some price => line.qty * price
    | none => 0)).sum

/-! ## Badges shown on the profile page -/

/-- The badges the profile page shows as owned: `Object.keys(profile.badges)`. -/
def ownedBadges (p : Profile) : List String :=
  p.badges.map (fun e => e.1)

/-! ## Ids and clock readings -/

/-- The number a list of decimal digit characters writes, continuing from `acc`. -/
def digitsValue (acc : Nat) (l : List Char) : Nat :=
  l.foldl (fun a c => a * 10 + (c.toNat - 48)) acc

/-- The readings of `Date.now()` an intent asks for. -/
def Action.clock : Action → List Int
  | .addPost now _ _ => [now]
  | .addIdea now _ => [now]
  | _ => []

/-- A session with the clock readings its intents were given, the latest first. -/
inductive Session : List Int → State → Prop where
  | init : Session [] initialState
  | step (a : Action) (cs : List Int) (s : State) (hs : Session cs s) :
      Session (a.clock ++ cs) (step a s)

/-- The ids of a list are distinct and each is a sample id or made from a reading
of `cs`. -/
def IdsFrom (pre : String) (base : List String) (cs : List Int) (ids : List String) : Prop :=
  ids.Nodup ∧ ∀ x ∈ ids, x ∈ base ∨ ∃ n ∈ cs, x = pre ++ toString n

/-! ## Rounding -/

theorem floor_le_roundHalfEven (x : ℚ) : ⌊x⌋ ≤ roundHalfEven x := by
  unfold roundHalfEven
  simp only
  split_ifs <;> omega

theorem roundHalfEven_le_floor_succ (x : ℚ) : roundHalfEven x ≤ ⌊x⌋ + 1 := by
  unfold roundHalfEven
  simp only
  split_ifs <;> omega

theorem roundHalfEven_le_of_le_int (x : ℚ) (n : ℤ) (h : x ≤ (n : ℚ)) : roundHalfEven x ≤ n := by
  rcases h.lt_or_eq with hlt | heq
  · have h1 : ⌊x⌋ < n := Int.floor_lt.mpr hlt
    have h2 := roundHalfEven_le_floor_succ x
    omega
  · subst heq
    unfold roundHalfEven
    simp

theorem roundHalfEven_mono {x y : ℚ} (h : x ≤ y) : roundHalfEven x ≤ roundHalfEven y := by
  have hf : ⌊x⌋ ≤ ⌊y⌋ := Int.floor_mono h
  rcases hf.lt_or_eq with hlt | heq
  · have h1 := roundHalfEven_le_floor_succ x
    have h2 := floor_le_roundHalfEven y
    omega
  · have hr : x - (⌊x⌋ : ℚ) ≤ y - (⌊y⌋ : ℚ) := by rw [heq]; linarith
    unfold roundHalfEven
    simp only
    rw [heq] at hr ⊢
    split_ifs <;> first | omega | linarith

theorem roundHalfEven_nonneg {x : ℚ} (h : 0 ≤ x) : 0 ≤ roundHalfEven x :=
  le_trans (Int.floor_nonneg.mpr h) (floor_le_roundHalfEven x)

theorem fl_nonneg {x : ℚ} (h : 0 ≤ x) : 0 ≤ fl x := by
  unfold fl
  split_ifs with h0
  · exact le_refl 0
  · simp only
    have hu : (0 : ℚ) < 2 ^ (Int.log 2 |x| - 52) := by positivity
    have hx : 0 ≤ x / 2 ^ (Int.log 2 |x| - 52) := div_nonneg h hu.le
    have hr := roundHalfEven_nonneg hx
    have : (0 : ℚ) ≤ (roundHalfEven (x / 2 ^ (Int.log 2 |x| - 52)) : ℚ) := by exact_mod_cast hr
    exact mul_nonneg this hu.le

/-- For a positive `x` in the binade of exponent `e`, `fl x` lies between `2^e` and `2^(e+1)`. -/
theorem fl_binade {x : ℚ} (hx : 0 < x) :
    (2 : ℚ) ^ (Int.log 2 x) ≤ fl x ∧ fl x ≤ (2 : ℚ) ^ (Int.log 2 x + 1) := by
  have hlo : (2 : ℚ) ^ (Int.log 2 x) ≤ x := by
    have := Int.zpow_log_le_self (b := 2) (r := x) (by norm_num) hx
    simpa using this
  have hhi : x < (2 : ℚ) ^ (Int.log 2 x + 1) := by
    have := Int.lt_zpow_succ_log_self (b := 2) (by norm_num) x
    simpa using this
  unfold fl
  rw [if_neg hx.ne.symm, abs_of_pos hx]
  simp only
  set e := Int.log 2 x with he
  have hu : (0 : ℚ) < 2 ^ (e - 52) := by positivity
  have e1 : (2 : ℚ) ^ e = ((2 ^ 52 : ℤ) : ℚ) * 2 ^ (e - 52) := by
    rw [zpow_sub₀ (by norm_num : (2 : ℚ) ≠ 0)]
    push_cast
    field_simp
    ring
  have e2 : (2 : ℚ) ^ (e + 1) = ((2 ^ 53 : ℤ) : ℚ) * 2 ^ (e - 52) := by
    rw [zpow_sub₀ (by norm_num : (2 : ℚ) ≠ 0), zpow_add₀ (by norm_num : (2 : ℚ) ≠ 0)]
    push_cast
    field_simp
    ring
  constructor
  · rw [e1]
    apply mul_le_mul_of_nonneg_right _ hu.le
    have : ((2 ^ 52 : ℤ) : ℚ) ≤ x / 2 ^ (e - 52) := by
      rw [le_div_iff₀ hu, ← e1]; exact hlo
    have h1 : (2 ^ 52 : ℤ) ≤ ⌊x / 2 ^ (e - 52)⌋ := Int.le_floor.mpr this
    have h2 := floor_le_roundHalfEven (x / 2 ^ (e - 52))
    exact_mod_cast le_trans h1 h2
  · rw [e2]
    apply mul_le_mul_of_nonneg_right _ hu.le
    have : x / 2 ^ (e - 52) ≤ ((2 ^ 53 : ℤ) : ℚ) := by
      rw [div_le_iff₀ hu, ← e2]; exact hhi.le
    exact_mod_cast roundHalfEven_le_of_le_int _ _ this

theorem fl_mono {x y : ℚ} (hx : 0 ≤ x) (hxy : x ≤ y) : fl x ≤ fl y := by
  rcases hx.lt_or_eq with hpos | h0
  · have hy : 0 < y := lt_of_lt_of_le hpos hxy
    have hlog : Int.log 2 x ≤ Int.log 2 y := Int.log_mono_right hpos hxy
    rcases hlog.lt_or_eq with hlt | heq
    · have h1 := (fl_binade hpos).2
      have h2 := (fl_binade hy).1
      have h3 : (2 : ℚ) ^ (Int.log 2 x + 1) ≤ 2 ^ (Int.log 2 y) :=
        zpow_le_zpow_right₀ (by norm_num) (by omega)
      linarith
    · unfold fl
      rw [if_neg hpos.ne.symm, if_neg hy.ne.symm, abs_of_pos hpos, abs_of_pos hy, heq]
      simp only
      have hu : (0 : ℚ) < 2 ^ (Int.log 2 y - 52) := by positivity
      apply mul_le_mul_of_nonneg_right _ hu.le
      have : x / 2 ^ (Int.log 2 y - 52) ≤ y / 2 ^ (Int.log 2 y - 52) :=
        div_le_div_of_nonneg_right hxy hu.le
      exact_mod_cast roundHalfEven_mono this
  · subst h0
    have : fl 0 = 0 := by simp [fl]
    rw [this]
    exact fl_nonneg hxy

theorem jsRound_mono {x y : ℚ} (h : x ≤ y) : jsRound x ≤ jsRound y := by
  unfold jsRound
  exact Int.floor_mono (by linarith)

theorem jsRound_nonneg {x : ℚ} (h : 0 ≤ x) : 0 ≤ jsRound x := by
  unfold jsRound
  exact Int.floor_nonneg.mpr (by linarith)


theorem roundHalfEven_intCast (n : ℤ) : roundHalfEven (n : ℚ) = n := by
  unfold roundHalfEven
  simp

theorem roundHalfEven_of_near (x : ℚ) (n : ℤ) (h1 : (n : ℚ) - 1 / 2 < x)
    (h2 : x < (n : ℚ) + 1 / 2) : roundHalfEven x = n := by
  have hf : ⌊x⌋ = n ∨ ⌊x⌋ = n - 1 := by
    have a : n - 1 ≤ ⌊x⌋ := Int.le_floor.mpr (by push_cast; linarith)
    have b : ⌊x⌋ < n + 1 := Int.floor_lt.mpr (by push_cast; linarith)
    omega
  unfold roundHalfEven
  simp only
  rcases hf with hf | hf
  · rw [hf]
    rw [if_pos (by linarith)]
  · have hle : (⌊x⌋ : ℚ) ≤ x := Int.floor_le x
    have hlt : x < (⌊x⌋ : ℚ) + 1 := Int.lt_floor_add_one x
    rw [hf] at hle hlt ⊢
    push_cast at hle hlt ⊢
    rw [if_neg (by linarith), if_pos (by linarith)]
    ring

theorem fl_of_binade (x : ℚ) (e : ℤ) (hlo : (2 : ℚ) ^ e ≤ x) (hhi : x < (2 : ℚ) ^ (e + 1)) :
    fl x = roundHalfEven (x / 2 ^ (e - 52)) * 2 ^ (e - 52) := by
  have hx : 0 < x := lt_of_lt_of_le (by positivity) hlo
  have h1 : e ≤ Int.log 2 x :=
    (Int.zpow_le_iff_le_log (b := 2) (by norm_num) hx).mp (by simpa using hlo)
  have h2 : Int.log 2 x < e + 1 :=
    (Int.lt_zpow_iff_log_lt (b := 2) (by norm_num) hx).mp (by simpa using hhi)
  have he : Int.log 2 x = e := by omega
  unfold fl
  rw [if_neg hx.ne.symm, abs_of_pos hx, he]

/-- A natural number below `2^53` is a double. -/
theorem fl_natCast (n : ℕ) (h : n < 2 ^ 53) : fl (n : ℚ) = n := by
  rcases Nat.eq_zero_or_pos n with h0 | hpos
  · subst h0
    simp [fl]
  · have hx : (0 : ℚ) < n := by exact_mod_cast hpos
    have hk : Nat.log 2 n < 53 := Nat.log_lt_of_lt_pow hpos.ne.symm h
    have hlog : Int.log 2 (n : ℚ) = (Nat.log 2 n : ℤ) := Int.log_natCast 2 n
    unfold fl
    rw [if_neg hx.ne.symm, abs_of_pos hx, hlog]
    simp only
    obtain ⟨j, hj⟩ : ∃ j : ℕ, Nat.log 2 n + j = 52 := ⟨52 - Nat.log 2 n, by omega⟩
    have hu : (2 : ℚ) ^ ((Nat.log 2 n : ℤ) - 52) = ((2 : ℚ) ^ j)⁻¹ := by
      have : (Nat.log 2 n : ℤ) - 52 = -(j : ℤ) := by omega
      rw [this, zpow_neg, zpow_natCast]
    rw [hu]
    have hq : (n : ℚ) / ((2 : ℚ) ^ j)⁻¹ = (((n * 2 ^ j : ℕ) : ℤ) : ℚ) := by
      push_cast
      rw [div_inv_eq_mul]
    rw [hq, roundHalfEven_intCast]
    push_cast
    field_simp


/-! ## Rank calculator -/

theorem computeRank_current_eq (points : Int) :
    (computeRank points).current =
      if 1200 ≤ points then { key := "visionary", name := "Visionary", threshold := 1200 }
      else if 700 ≤ points then { key := "innovator", name := "Innovator", threshold := 700 }
      else if 300 ≤ points then { key := "builder", name := "Builder", threshold := 300 }
      else if 100 ≤ points then { key := "tinkerer", name := "Tinkerer", threshold := 100 }
      else if 0 ≤ points then { key := "explorer", name := "Explorer", threshold := 0 }
      else { key := "explorer", name := "Explorer", threshold := 0 } := by
  simp only [computeRank, RANKS, List.foldl, List.get, ge_iff_le]

theorem computeRank_current_threshold_le (points : Int) (h : 0 ≤ points) :
    (computeRank points).current.threshold ≤ points := by
  rw [computeRank_current_eq]
  split_ifs <;> simp <;> omega

theorem computeRank_pct_eq (points : Int) :
    (computeRank points).pct =
      min 100 (jsRound (fl (fl (fl ((points : ℚ) - ((computeRank points).current.threshold : ℚ)) /
        ((max 1 ((computeRank points).next.threshold - (computeRank points).current.threshold) : Int) : ℚ)) * 100))) :=
  rfl

theorem computeRank_next_eq (points : Int) :
    (computeRank points).next =
      RANKS.getD (min (rankIndexOf RANKS (computeRank points).current + 1)
        ((RANKS.length : Int) - 1)).toNat (computeRank points).current :=
  rfl

/-- C1: for every integer `points ≥ 0`, `computeRank(points).current` is the tier of
`RANKS` with the greatest threshold that is at most `points` (it is in `RANKS`, its
threshold is at most `points`, and a tier of `RANKS` has these two properties
together with a threshold no smaller than any other such tier exactly when it is
`current`); at 0, 100, 300, 700 and 1200 its key is explorer, tinkerer, builder,
innovator and visionary. -/
theorem computeRank_current_greatest (points : Int) (h : 0 ≤ points) :
    (computeRank points).current ∈ RANKS ∧
    (computeRank points).current.threshold ≤ points ∧
    (∀ r ∈ RANKS, r.threshold ≤ points →
      r.threshold ≤ (computeRank points).current.threshold) ∧
    (∀ r ∈ RANKS, r.threshold ≤ points →
      (∀ t ∈ RANKS, t.threshold ≤ points → t.threshold ≤ r.threshold) →
      r = (computeRank points).current) ∧
    (computeRank 0).current.key = "explorer" ∧
    (computeRank 100).current.key = "tinkerer" ∧
    (computeRank 300).current.key = "builder" ∧
    (computeRank 700).current.key = "innovator" ∧
    (computeRank 1200).current.key = "visionary" := by
  refine ⟨?_, computeRank_current_threshold_le points h, ?_, ?_, ?_, ?_, ?_, ?_, ?_⟩
  · rw [computeRank_current_eq]
    split_ifs <;> simp [RANKS]
  · intro r hr hle
    rw [computeRank_current_eq]
    simp only [RANKS, List.mem_cons, List.mem_singleton, List.not_mem_nil, or_false] at hr
    rcases hr with rfl | rfl | rfl | rfl | rfl <;> simp only at hle ⊢ <;> split_ifs <;> simp
  · intro r hr hle hmax
    have hcur := computeRank_current_eq points
    have h0 := hmax { key := "explorer", name := "Explorer", threshold := 0 } (by simp [RANKS])
    have h1 := hmax { key := "tinkerer", name := "Tinkerer", threshold := 100 } (by simp [RANKS])
    have h2 := hmax { key := "builder", name := "Builder", threshold := 300 } (by simp [RANKS])
    have h3 := hmax { key := "innovator", name := "Innovator", threshold := 700 } (by simp [RANKS])
    have h4 := hmax { key := "visionary", name := "Visionary", threshold := 1200 } (by simp [RANKS])
    simp only at h0 h1 h2 h3 h4
    rw [hcur]
    simp only [RANKS, List.mem_cons, List.mem_singleton, List.not_mem_nil, or_false] at hr
    rcases hr with rfl | rfl | rfl | rfl | rfl <;> simp only at hle h0 h1 h2 h3 h4 ⊢ <;>
      split_ifs <;> first | rfl | (exfalso; omega)
  · rw [computeRank_current_eq]; rfl
  · rw [computeRank_current_eq]; rfl
  · rw [computeRank_current_eq]; rfl
  · rw [computeRank_current_eq]; rfl
  · rw [computeRank_current_eq]; rfl

theorem computeRank_current_greatest_witness :
    (0 : Int) ≤ 250 ∧ (computeRank 250).current.key = "tinkerer" ∧
      (computeRank 250).current.threshold ≤ 250 :=
  ⟨by decide, by
    have h := (computeRank_current_greatest 250 (by decide)).2.1
    constructor
    · rw [computeRank_current_eq]; rfl
    · exact h⟩


theorem computeRank_span_pos (points : Int) :
    (0 : ℚ) < ((max 1 ((computeRank points).next.threshold -
      (computeRank points).current.threshold) : Int) : ℚ) := by
  have : (1 : Int) ≤ max 1 ((computeRank points).next.threshold -
      (computeRank points).current.threshold) := le_max_left _ _
  exact_mod_cast (by omega : (0 : Int) < max 1 ((computeRank points).next.threshold -
      (computeRank points).current.threshold))

theorem computeRank_into_nonneg (points : Int) (h : 0 ≤ points) :
    (0 : ℚ) ≤ fl ((points : ℚ) - ((computeRank points).current.threshold : ℚ)) := by
  apply fl_nonneg
  have := computeRank_current_threshold_le points h
  have h2 : ((computeRank points).current.threshold : ℚ) ≤ (points : ℚ) := by exact_mod_cast this
  linarith

/-- C2: for every integer `points ≥ 0`, the progress percentage `pct` returned by
`computeRank` is an integer between 0 and 100. -/
theorem computeRank_pct_bounds (points : Int) (h : 0 ≤ points) :
    0 ≤ (computeRank points).pct ∧ (computeRank points).pct ≤ 100 := by
  rw [computeRank_pct_eq]
  constructor
  · apply le_min (by norm_num)
    apply jsRound_nonneg
    apply fl_nonneg
    apply mul_nonneg _ (by norm_num)
    apply fl_nonneg
    exact div_nonneg (computeRank_into_nonneg points h) (computeRank_span_pos points).le
  · exact min_le_left _ _

theorem computeRank_pct_bounds_witness :
    (0 : Int) ≤ 157 ∧ 0 ≤ (computeRank 157).pct ∧ (computeRank 157).pct ≤ 100 :=
  ⟨by decide, computeRank_pct_bounds 157 (by decide)⟩

/-- C3: progress is monotonic within a tier: for integers `0 ≤ p ≤ q` with the same
current tier, `computeRank(p).pct ≤ computeRank(q).pct`. -/
theorem computeRank_pct_mono (p q : Int) (hp : 0 ≤ p) (hpq : p ≤ q)
    (hcur : (computeRank p).current = (computeRank q).current) :
    (computeRank p).pct ≤ (computeRank q).pct := by
  have hnext : (computeRank p).next = (computeRank q).next := by
    rw [computeRank_next_eq, computeRank_next_eq, hcur]
  rw [computeRank_pct_eq, computeRank_pct_eq, hnext, hcur]
  apply min_le_min_left
  apply jsRound_mono
  have hinto := computeRank_into_nonneg p hp
  rw [hcur] at hinto
  have hspan := computeRank_span_pos q
  have hle : fl ((p : ℚ) - ((computeRank q).current.threshold : ℚ)) ≤
      fl ((q : ℚ) - ((computeRank q).current.threshold : ℚ)) := by
    have h1 := computeRank_current_threshold_le p hp
    rw [hcur] at h1
    have h2 : ((computeRank q).current.threshold : ℚ) ≤ (p : ℚ) := by exact_mod_cast h1
    have h3 : (p : ℚ) ≤ (q : ℚ) := by exact_mod_cast hpq
    exact fl_mono (by linarith) (by linarith)
  have hq1 := fl_nonneg (div_nonneg hinto hspan.le)
  apply fl_mono (mul_nonneg hq1 (by norm_num))
  apply mul_le_mul_of_nonneg_right _ (by norm_num)
  exact fl_mono (div_nonneg hinto hspan.le) (div_le_div_of_nonneg_right hle hspan.le)

theorem computeRank_pct_mono_witness :
    (0 : Int) ≤ 125 ∧ (125 : Int) ≤ 175 ∧
      (computeRank 125).current = (computeRank 175).current ∧
      (computeRank 125).pct ≤ (computeRank 175).pct :=
  ⟨by decide, by decide, by rw [computeRank_current_eq, computeRank_current_eq]; rfl,
    computeRank_pct_mono 125 175 (by decide) (by decide)
      (by rw [computeRank_current_eq, computeRank_current_eq]; rfl)⟩


theorem computeRank_next_tinkerer (points : Int) (h1 : 100 ≤ points) (h2 : points < 300) :
    (computeRank points).current = { key := "tinkerer", name := "Tinkerer", threshold := 100 } ∧
    (computeRank points).next = { key := "builder", name := "Builder", threshold := 300 } := by
  have hc : (computeRank points).current =
      { key := "tinkerer", name := "Tinkerer", threshold := 100 } := by
    rw [computeRank_current_eq]
    rw [if_neg (by omega), if_neg (by omega), if_neg (by omega), if_pos h1]
  refine ⟨hc, ?_⟩
  rw [computeRank_next_eq, hc]
  decide

/-- The percentage follows the doubles of the program: at 157 points the quotient
`57 / 200` and its product with 100 are rounded to `28.499999999999996`, which
`Math.round` takes to 28 (the exact value 28.5 would give 29). -/
theorem computeRank_pct_157 : (computeRank 157).pct = 28 := by
  obtain ⟨hc, hn⟩ := computeRank_next_tinkerer 157 (by decide) (by decide)
  rw [computeRank_pct_eq, hc, hn]
  have e0 : ((157 : Int) : ℚ) - ((100 : Int) : ℚ) = ((57 : ℕ) : ℚ) := by norm_num
  have e1 : fl (((57 : ℕ) : ℚ) / ((max 1 (300 - 100) : Int) : ℚ)) =
      5134103575202365 * 2 ^ (-54 : ℤ) := by
    rw [fl_of_binade _ (-2) (by norm_num) (by norm_num)]
    rw [roundHalfEven_of_near _ 5134103575202365 (by norm_num) (by norm_num)]
    norm_num
  have e2 : fl (5134103575202365 * 2 ^ (-54 : ℤ) * 100) = 8022036836253695 * 2 ^ (-48 : ℤ) := by
    rw [fl_of_binade _ 4 (by norm_num) (by norm_num)]
    rw [roundHalfEven_of_near _ 8022036836253695 (by norm_num) (by norm_num)]
    norm_num
  have e3 : jsRound (8022036836253695 * 2 ^ (-48 : ℤ)) = 28 := by
    unfold jsRound
    rw [Int.floor_eq_iff]
    constructor <;> norm_num
  rw [e0, fl_natCast 57 (by norm_num), e1, e2, e3]
  decide


/-! ## Objects used as maps -/

theorem objGet_nil {α : Type} (k : String) : objGet ([] : List (String × α)) k = none := rfl

theorem objGet_cons {α : Type} (e : String × α) (o : List (String × α)) (k : String) :
    objGet (e :: o) k = if e.1 = k then some e.2 else objGet o k := by
  unfold objGet
  by_cases h : e.1 = k <;> simp [List.find?, h]

theorem any_key_eq_isSome {α : Type} (o : List (String × α)) (k : String) :
    o.any (fun e => e.1 = k) = (objGet o k).isSome := by
  induction o with
  | nil => rfl
  | cons e o ih =>
    rw [objGet_cons, List.any_cons, ih]
    by_cases h : e.1 = k <;> simp [h]

theorem objGet_map_replace {α : Type} (o : List (String × α)) (k j : String) (v : α) :
    objGet (o.map (fun e => if e.1 = k then (k, v) else e)) j =
      if j = k then (objGet o k).map (fun _ => v) else objGet o j := by
  induction o with
  | nil => simp [objGet_nil]
  | cons e o ih =>
    rw [List.map_cons, objGet_cons, ih]
    by_cases hj : j = k
    · subst hj
      by_cases he : e.1 = j <;> simp [objGet_cons, he]
    · by_cases he : e.1 = k
      · have : ¬ e.1 = j := fun h => hj (h.symm.trans he)
        have hk : ¬ k = j := fun h => hj h.symm
        simp [objGet_cons, he, hj, this, hk]
      · simp [objGet_cons, he, hj]

theorem objGet_append_singleton {α : Type} (o : List (String × α)) (k j : String) (v : α) :
    objGet (o ++ [(k, v)]) j =
      match objGet o j with
      | some x => some x
      | none => if k = j then some v else none := by
  induction o with
  | nil => simp [objGet_cons, objGet_nil]
  | cons e o ih =>
    rw [List.cons_append, objGet_cons, objGet_cons, ih]
    by_cases he : e.1 = j <;> simp [he]

theorem objGet_objSet_self {α : Type} (o : List (String × α)) (k : String) (v : α) :
    objGet (objSet o k v) k = some v := by
  unfold objSet
  rw [any_key_eq_isSome]
  cases h : objGet o k with
  | none => simp [objGet_append_singleton, h]
  | some x => simp [objGet_map_replace, h]

theorem objGet_objSet_of_ne {α : Type} (o : List (String × α)) (k j : String) (v : α)
    (h : j ≠ k) : objGet (objSet o k v) j = objGet o j := by
  unfold objSet
  rw [any_key_eq_isSome]
  have hk : ¬ k = j := fun e => h e.symm
  cases hg : objGet o k with
  | none =>
    simp only [Option.isSome_none, Bool.false_eq_true, if_false, objGet_append_singleton]
    cases objGet o j <;> simp [hk]
  | some x => simp [objGet_map_replace, h]

theorem awardBadge_grants (key : String) (p : Profile) :
    objGet (awardBadge key p).badges key = some true := by
  simp [awardBadge, objGet_objSet_self]

theorem addPoints_of_nonneg (n : Int) (p : Profile) (hn : 0 ≤ n) (hp : 0 ≤ p.points) :
    (addPoints n p).points = p.points + n := by
  simp only [addPoints]
  exact max_eq_right (by omega)

theorem find_course (c : Course) (hc : c ∈ SAMPLE_COURSES) :
    SAMPLE_COURSES.find? (fun x => x.id = c.id) = some c := by
  simp only [SAMPLE_COURSES, List.mem_cons, List.mem_singleton, List.not_mem_nil, or_false] at hc
  rcases hc with rfl | rfl | rfl | rfl <;> rfl

theorem course_id_own (c : Course) (hc : c ∈ SAMPLE_COURSES) :
    c.id ∉ OBJECT_PROTOTYPE_KEYS := by
  simp only [SAMPLE_COURSES, List.mem_cons, List.mem_singleton, List.not_mem_nil,
    or_false] at hc
  rcases hc with rfl | rfl | rfl | rfl <;> decide

/-- For an id that names no inherited property the toggle works on own records
only: the record is created when missing and then flipped. -/
theorem toggleEnroll_own (id : String) (s : State) (h : id ∉ OBJECT_PROTOTYPE_KEYS) :
    (toggleEnroll id s).enrolled =
      objSet (if (objGet s.enrolled id).isNone then objSet s.enrolled id { done := false }
          else s.enrolled) id
        { done := !((objGet (if (objGet s.enrolled id).isNone then
              objSet s.enrolled id { done := false } else s.enrolled) id).getD
                { done := false }).done } ∧
    (toggleEnroll id s).profile =
      if (!((objGet (if (objGet s.enrolled id).isNone then
              objSet s.enrolled id { done := false } else s.enrolled) id).getD
                { done := false }).done) = true
      then awardBadge "firstCourse"
        (match SAMPLE_COURSES.find? (fun c => c.id = id) with
          | some course => addPoints course.points s.profile
          | none => s.profile)
      else s.profile := by
  constructor <;> simp [toggleEnroll, h]

/-! ## Courses -/

/-- C4: for every state and every course `c` of the catalog: when `c` is not done (no
record, or `done = false`), `toggleEnroll(c.id)` sets `done = true`, grants the badge
`firstCourse` and, the points being non-negative as the data model has them, raises
the points by exactly `c.points`; when `c` is done, it sets `done = false` and
leaves the profile (points and badges) as it was. -/
theorem toggleEnroll_course (s : State) (c : Course) (hc : c ∈ SAMPLE_COURSES) :
    ((objGet s.enrolled c.id = none ∨ objGet s.enrolled c.id = some { done := false }) →
      objGet (toggleEnroll c.id s).enrolled c.id = some { done := true } ∧
      (0 ≤ s.profile.points →
        (toggleEnroll c.id s).profile.points = s.profile.points + c.points) ∧
      objGet (toggleEnroll c.id s).profile.badges "firstCourse" = some true) ∧
    (objGet s.enrolled c.id = some { done := true } →
      objGet (toggleEnroll c.id s).enrolled c.id = some { done := false } ∧
      (toggleEnroll c.id s).profile = s.profile) := by
  have hpos : 0 ≤ c.points := by
    simp only [SAMPLE_COURSES, List.mem_cons, List.mem_singleton, List.not_mem_nil,
      or_false] at hc
    rcases hc with rfl | rfl | rfl | rfl <;> decide
  have hown := toggleEnroll_own c.id s (course_id_own c hc)
  constructor
  · intro h
    have hdone : (toggleEnroll c.id s).enrolled =
          objSet (if (objGet s.enrolled c.id).isNone then objSet s.enrolled c.id { done := false }
            else s.enrolled) c.id { done := true } ∧
        (toggleEnroll c.id s).profile = awardBadge "firstCourse" (addPoints c.points s.profile) := by
      rw [hown.1, hown.2]
      rcases h with h | h <;>
        simp [h, objGet_objSet_self, find_course c hc]
    refine ⟨?_, ?_, ?_⟩
    · rw [hdone.1, objGet_objSet_self]
    · intro hp
      rw [hdone.2]
      exact addPoints_of_nonneg c.points s.profile hpos hp
    · rw [hdone.2]
      exact awardBadge_grants _ _
  · intro h
    rw [hown.1, hown.2]
    constructor
    · simp [h, objGet_objSet_self]
    · simp [h]

theorem toggleEnroll_course_witness :
    objGet (toggleEnroll "c1" initialState).enrolled "c1" = some { done := true } ∧
    (toggleEnroll "c1" initialState).profile.points = initialState.profile.points + 80 ∧
    objGet (toggleEnroll "c1" initialState).profile.badges "firstCourse" = some true ∧
    objGet (toggleEnroll "c1" (toggleEnroll "c1" initialState)).enrolled "c1" =
      some { done := false } ∧
    (toggleEnroll "c1" (toggleEnroll "c1" initialState)).profile =
      (toggleEnroll "c1" initialState).profile :=
  have h1 := (toggleEnroll_course initialState
    { id := "c1", title := "Arduino Basics", points := 80 } (by decide)).1 (Or.inl (by decide))
  have h2 := (toggleEnroll_course (toggleEnroll "c1" initialState)
    { id := "c1", title := "Arduino Basics", points := 80 } (by decide)).2 h1.1
  ⟨h1.1, h1.2.1 (by decide), h1.2.2, h2.1, h2.2⟩


/-! ## Forum and ideas -/

/-- C5: validation rejection is atomic: `addPost(title, body)` with a title or a body
that is empty after trimming, and `addIdea(title)` with a title that is empty after
trimming, only raise their alert and return the state they were given, so the
posts, the ideas, the points and the badges are as before. -/
theorem addPost_addIdea_reject (s : State) (now : Int) (title body : String) :
    ((jsTrim title = "" ∨ jsTrim body = "") →
      addPost now title body s = (s, "Please write a title and details.")) ∧
    (jsTrim title = "" → addIdea now title s = (s, "Please write your project idea.")) := by
  constructor
  · intro h
    rcases h with h | h <;> simp [addPost, h]
  · intro h
    simp [addIdea, h]

theorem addPost_addIdea_reject_witness :
    addPost 1700000000000 "  " "x" initialState =
      (initialState, "Please write a title and details.") ∧
    addPost 1700000000000 "x" "\n\t" initialState =
      (initialState, "Please write a title and details.") ∧
    addIdea 1700000000000 "" initialState =
      (initialState, "Please write your project idea.") :=
  ⟨(addPost_addIdea_reject initialState 1700000000000 "  " "x").1 (Or.inl (by decide)),
   (addPost_addIdea_reject initialState 1700000000000 "x" "\n\t").1 (Or.inr (by decide)),
   (addPost_addIdea_reject initialState 1700000000000 "" "x").2 (by decide)⟩

/-- C6: for every state and all `title`, `body` that are non-empty after trimming,
`addPost(title, body)` puts one new post in front of the old list, which is kept as
it was: the post has the trimmed title and body, `likes = 0`, and the profile name
as author, or "You" when the name is empty; the badge `helper` is granted and, the
points being non-negative, they rise by exactly 20. -/
theorem addPost_accept (s : State) (now : Int) (title body : String)
    (ht : jsTrim title ≠ "") (hb : jsTrim body ≠ "") :
    (∃ t : Post, (addPost now title body s).1.posts = t :: s.posts ∧
      t.title = jsTrim title ∧ t.body = jsTrim body ∧ t.likes = 0 ∧
      (s.profile.name ≠ "" → t.author = s.profile.name) ∧
      (s.profile.name = "" → t.author = "You")) ∧
    (0 ≤ s.profile.points →
      (addPost now title body s).1.profile.points = s.profile.points + 20) ∧
    objGet (addPost now title body s).1.profile.badges "helper" = some true := by
  have hposts : (addPost now title body s).1 =
      { s with posts := { id := "f" ++ toString now,
                          author := if s.profile.name = "" then "You" else s.profile.name,
                          title := jsTrim title, body := jsTrim body, likes := 0 } :: s.posts,
               profile := awardBadge "helper" (addPoints 20 s.profile) } := by
    simp [addPost, ht, hb]
  rw [hposts]
  refine ⟨⟨_, rfl, rfl, rfl, rfl, ?_, ?_⟩, ?_, awardBadge_grants _ _⟩
  · intro hn; simp [hn]
  · intro hn; simp [hn]
  · intro hp
    exact addPoints_of_nonneg 20 s.profile (by decide) hp

theorem addPost_accept_witness :
    (∃ t : Post, (addPost 1700000000000 " T " "B" initialState).1.posts = t :: SAMPLE_POSTS ∧
      t.title = "T" ∧ t.body = "B" ∧ t.likes = 0 ∧ t.author = "Guest Maker") ∧
    (addPost 1700000000000 " T " "B" initialState).1.profile.points = 20 ∧
    objGet (addPost 1700000000000 " T " "B" initialState).1.profile.badges "helper" =
      some true :=
  have h := addPost_accept initialState 1700000000000 " T " "B" (by decide) (by decide)
  ⟨h.1.imp (fun _ ht => ⟨ht.1, ht.2.1.trans (by decide), ht.2.2.1.trans (by decide),
      ht.2.2.2.1, ht.2.2.2.2.1 (by decide)⟩),
    (h.2.1 (by decide)).trans (by decide), h.2.2⟩


/-! ## Cart -/

theorem cartAdd_of_mem (pid : String) (C : List CartLine) (h : ∃ c ∈ C, c.id = pid) :
    cartAdd pid C = C.map (fun c => if c.id = pid then { c with qty := c.qty + 1 } else c) := by
  unfold cartAdd
  cases hf : C.find? (fun c => c.id = pid) with
  | some x => rfl
  | none =>
    exfalso
    obtain ⟨c, hc, hid⟩ := h
    have := List.find?_eq_none.mp hf c hc
    simp [hid] at this

theorem cartAdd_of_not_mem (pid : String) (C : List CartLine) (h : ∀ c ∈ C, c.id ≠ pid) :
    cartAdd pid C = C ++ [{ id := pid, qty := 1 }] := by
  unfold cartAdd
  cases hf : C.find? (fun c => c.id = pid) with
  | none => rfl
  | some x =>
    exfalso
    have hx := List.find?_some hf
    have hm := List.mem_of_find?_eq_some hf
    exact h x hm (by simpa using hx)

theorem cartAdd_ids_of_mem (pid : String) (C : List CartLine) (h : ∃ c ∈ C, c.id = pid) :
    (cartAdd pid C).map (fun c => c.id) = C.map (fun c => c.id) := by
  rw [cartAdd_of_mem pid C h, List.map_map]
  apply List.map_congr_left
  intro c _
  by_cases hc : c.id = pid <;> simp [hc]

theorem filter_id_append_new (pid : String) (q : Int) (C : List CartLine)
    (h : ∀ c ∈ C, c.id ≠ pid) :
    (C ++ [({ id := pid, qty := q } : CartLine)]).filter (fun c => c.id = pid) =
      [{ id := pid, qty := q }] := by
  rw [List.filter_append]
  have : C.filter (fun c => c.id = pid) = [] := by
    rw [List.filter_eq_nil_iff]
    intro c hc
    simpa using h c hc
  rw [this]
  simp

/-- C7: for every cart with at most one line per product id and every product id
`p`, `addToCart(p)` keeps it so.  When `p` has a line, the cart keeps its length, the
line of `p` has its quantity raised by 1 and every other line stays in its place
unchanged; when `p` has no line, the cart is the old one followed by the line
`(p, 1)`.  Adding `p` twice to a cart without `p` leaves exactly one line for `p`,
with quantity 2.  Each call grants the badge `shopper` and, the points being
non-negative, adds 5 points. -/
theorem addToCart_line (s : State) (p : String)
    (hnd : (s.cart.map (fun c => c.id)).Nodup) :
    ((addToCart p s).cart.map (fun c => c.id)).Nodup ∧
    ((∃ c ∈ s.cart, c.id = p) →
      (addToCart p s).cart.length = s.cart.length ∧
      ∀ (i : Nat) (c : CartLine), s.cart[i]? = some c →
        (c.id = p → (addToCart p s).cart[i]? = some { id := p, qty := c.qty + 1 }) ∧
        (c.id ≠ p → (addToCart p s).cart[i]? = some c)) ∧
    ((∀ c ∈ s.cart, c.id ≠ p) →
      (addToCart p s).cart = s.cart ++ [{ id := p, qty := 1 }] ∧
      (addToCart p (addToCart p s)).cart.filter (fun c => c.id = p) =
        [{ id := p, qty := 2 }]) ∧
    (0 ≤ s.profile.points → (addToCart p s).profile.points = s.profile.points + 5) ∧
    objGet (addToCart p s).profile.badges "shopper" = some true := by
  refine ⟨?_, ?_, ?_, ?_, awardBadge_grants _ _⟩
  · by_cases h : ∃ c ∈ s.cart, c.id = p
    · show ((cartAdd p s.cart).map (fun c => c.id)).Nodup
      rw [cartAdd_ids_of_mem p s.cart h]
      exact hnd
    · have h2 : ∀ c ∈ s.cart, c.id ≠ p := fun c hc hid => h ⟨c, hc, hid⟩
      show ((cartAdd p s.cart).map (fun c => c.id)).Nodup
      rw [cartAdd_of_not_mem p s.cart h2, List.map_append, List.map_singleton]
      apply List.Nodup.append hnd (List.nodup_singleton _)
      rw [List.disjoint_singleton]
      intro hm
      obtain ⟨c, hc, hid⟩ := List.mem_map.mp hm
      exact h2 c hc hid
  · intro h
    have hc : (addToCart p s).cart =
        s.cart.map (fun c => if c.id = p then { c with qty := c.qty + 1 } else c) :=
      cartAdd_of_mem p s.cart h
    rw [hc]
    refine ⟨List.length_map _ _, ?_⟩
    intro i c hi
    rw [List.getElem?_map, hi]
    constructor
    · intro hid; simp [hid]
    · intro hid; simp [hid]
  · intro h
    have hc : (addToCart p s).cart = s.cart ++ [{ id := p, qty := 1 }] :=
      cartAdd_of_not_mem p s.cart h
    refine ⟨hc, ?_⟩
    have h2 : (addToCart p (addToCart p s)).cart =
        (s.cart ++ [({ id := p, qty := 1 } : CartLine)]).map
          (fun c : CartLine => if c.id = p then { c with qty := c.qty + 1 } else c) := by
      show cartAdd p (addToCart p s).cart = _
      rw [hc]
      exact cartAdd_of_mem p _ ⟨{ id := p, qty := 1 }, by simp, rfl⟩
    have h3 : s.cart.map (fun c => if c.id = p then { c with qty := c.qty + 1 } else c) =
        s.cart := by
      conv_rhs => rw [← List.map_id s.cart]
      apply List.map_congr_left
      intro c hm
      simp [h c hm]
    rw [h2, List.map_append, h3]
    simpa using filter_id_append_new p 2 s.cart h
  · intro hp
    show (awardBadge "shopper" (addPoints 5 s.profile)).points = _
    exact addPoints_of_nonneg 5 s.profile (by decide) hp

theorem addToCart_line_witness :
    ((addToCart "p1" initialState).cart.map (fun c => c.id)).Nodup ∧
    (addToCart "p1" initialState).cart = [{ id := "p1", qty := 1 }] ∧
    (addToCart "p1" (addToCart "p1" initialState)).cart.filter (fun c => c.id = "p1") =
      [{ id := "p1", qty := 2 }] ∧
    (addToCart "p1" initialState).profile.points = 5 ∧
    (addToCart "p1" (addToCart "p1" initialState)).cart.length = 1 :=
  have h := addToCart_line initialState "p1" (by decide)
  have h2 := addToCart_line (addToCart "p1" initialState) "p1" h.1
  ⟨h.1, (h.2.2.1 (by decide)).1, (h.2.2.1 (by decide)).2, h.2.2.2.1 (by decide),
    (h2.2.1 ⟨{ id := "p1", qty := 1 }, by decide, rfl⟩).1⟩

/-- C8: for every cart and product id `p`, `removeFromCart(p)` yields a cart with no
line for `p`, whatever the quantity of that line was; the lines of other products
are kept, each as often as before and in the same order; the cart is returned
unchanged when `p` has no line; nothing else of the state changes. -/
theorem removeFromCart_line (s : State) (p : String) :
    (∀ c ∈ (removeFromCart p s).cart, c.id ≠ p) ∧
    (removeFromCart p s).cart.Sublist s.cart ∧
    (∀ c : CartLine, c.id ≠ p → (removeFromCart p s).cart.count c = s.cart.count c) ∧
    ((∀ c ∈ s.cart, c.id ≠ p) → removeFromCart p s = s) ∧
    (removeFromCart p s).profile = s.profile ∧
    (removeFromCart p { s with cart := [{ id := p, qty := 2 }] }).cart = [] := by
  refine ⟨?_, ?_, ?_, ?_, rfl, ?_⟩
  · intro c hc
    have := (List.mem_filter.mp hc).2
    simpa using this
  · exact List.filter_sublist _
  · intro c hc
    show (s.cart.filter (fun c => c.id ≠ p)).count c = _
    rw [List.count_filter]
    simpa using hc
  · intro h
    have : s.cart.filter (fun c => c.id ≠ p) = s.cart := by
      rw [List.filter_eq_self]
      intro c hc
      simpa using h c hc
    show { s with cart := s.cart.filter (fun c => c.id ≠ p) } = s
    rw [this]
  · simp [removeFromCart]

/-! ## Cart total -/

theorem lookup_price_eq_find (l : List Product) (pid : String) :
    (l.map (fun p => (p.id, p.price))).lookup pid =
      (l.find? (fun x => x.id = pid)).map (fun p => p.price) := by
  induction l with
  | nil => rfl
  | cons a l ih =>
    by_cases h : a.id = pid
    · simp [List.lookup, List.find?, h]
    · have h2 : (pid == a.id) = false := by
        simp only [beq_eq_false_iff_ne, ne_eq]
        exact fun e => h e.symm
      simp only [List.map_cons, List.lookup, h2, List.find?, h, decide_False]
      exact ih

theorem foldl_add_eq_sum {α : Type} (f : α → Int) (l : List α) (a : Int) :
    l.foldl (fun sum item => sum + f item) a = a + (l.map f).sum := by
  induction l generalizing a with
  | nil => simp
  | cons x l ih =>
    rw [List.foldl_cons, ih, List.map_cons, List.sum_cons]
    ring

/-- C9: for every cart, `totalCost` is the sum over the cart lines of quantity times the
price of the catalog product with that id, a line whose product id is not in
`SAMPLE_PRODUCTS` contributing 0; for the cart `[(p1, 2), (p2, 1)]` it is
`2 * 239 + 1 * 89 = 567`. -/
theorem totalCost_eq_sum (cart : List CartLine) :
    totalCost cart = cartTotalSpec cart ∧
    totalCost [{ id := "p1", qty := 2 }, { id := "p2", qty := 1 }] = 2 * 239 + 1 * 89 ∧
    totalCost [{ id := "p1", qty := 2 }, { id := "p2", qty := 1 }] = 567 := by
  refine ⟨?_, by decide, by decide⟩
  have hline : ∀ item : CartLine,
      (match SAMPLE_PRODUCTS.find? (fun x => x.id = item.id) with
        | some p => p.price * item.qty
        | none => 0) =
      (match catalogPrice item.id with
        | some price => item.qty * price
        | none => 0) := by
    intro item
    unfold catalogPrice
    rw [lookup_price_eq_find]
    cases SAMPLE_PRODUCTS.find? (fun x => x.id = item.id) with
    | none => rfl
    | some p => simp [mul_comm]
  unfold totalCost cartTotalSpec
  simp only [hline]
  rw [foldl_add_eq_sum]
  simp


/-! ## Persistence -/

theorem readAll_map_enc {α β : Type} (read : β → Option α) (enc : α → β)
    (h : ∀ a, read (enc a) = some a) (l : List α) : readAll read (l.map enc) = some l := by
  induction l with
  | nil => rfl
  | cons a l ih => simp [readAll, h a, ih]

theorem readProfile_encProfile (p : Profile) : readProfile (encProfile p) = some p := by
  have hb : readAll readBadge (p.badges.map encBadge) = some p.badges :=
    readAll_map_enc readBadge encBadge (fun _ => rfl) p.badges
  simp [readProfile, encProfile, hb]

theorem readEnrolled_enc (E : List (String × EnrollRec)) :
    readEnrolled (.obj (E.map encEnroll)) = some E :=
  readAll_map_enc readEnroll encEnroll (fun _ => rfl) E

theorem readPosts_enc (P : List Post) : readPosts (.arr (P.map encPost)) = some P :=
  readAll_map_enc readPost encPost (fun _ => rfl) P

theorem readIdeas_enc (I : List Idea) : readIdeas (.arr (I.map encIdea)) = some I :=
  readAll_map_enc readIdea encIdea (fun _ => rfl) I

theorem readCart_enc (C : List CartLine) : readCart (.arr (C.map encLine)) = some C :=
  readAll_map_enc readLine encLine (fun _ => rfl) C

/-- Saving and loading gives the state back as soon as its page is not the empty
text; an empty page comes back as `home`. -/
theorem load_save_of_page_ne (S d : State) (h : S.page ≠ "") : load (save S) d = some S := by
  have hpage : loadField (encState S) "page" readPage "home" = some S.page := by
    simp [loadField, truthyField, encState, objGet, jsTruthy, h, readPage]
  have hprofile : loadField (encState S) "profile" readProfile d.profile = some S.profile := by
    simp [loadField, truthyField, encState, objGet, jsTruthy, encProfile]
    exact readProfile_encProfile S.profile
  have henrolled : loadField (encState S) "enrolled" readEnrolled [] = some S.enrolled := by
    simp [loadField, truthyField, encState, objGet, jsTruthy]
    exact readEnrolled_enc S.enrolled
  have hposts : loadField (encState S) "posts" readPosts SAMPLE_POSTS = some S.posts := by
    simp [loadField, truthyField, encState, objGet, jsTruthy]
    exact readPosts_enc S.posts
  have hideas : loadField (encState S) "ideas" readIdeas SAMPLE_IDEAS = some S.ideas := by
    simp [loadField, truthyField, encState, objGet, jsTruthy]
    exact readIdeas_enc S.ideas
  have hcart : loadField (encState S) "cart" readCart [] = some S.cart := by
    simp [loadField, truthyField, encState, objGet, jsTruthy]
    exact readCart_enc S.cart
  have htruthy : jsTruthy (encState S) = true := rfl
  simp only [load, save, htruthy, if_true, hpage, hprofile, henrolled, hposts, hideas, hcart,
    Option.bind_eq_bind, Option.some_bind, Option.pure_def]

theorem step_page (a : Action) (s : State) (ha : a.allowed = true) (hs : s.page ∈ PAGES) :
    (step a s).page ∈ PAGES := by
  cases a with
  | setPage key => simpa [Action.allowed] using ha
  | setDisplayName name => exact hs
  | toggleEnroll courseId => exact hs
  | handleQuiz ok => cases ok <;> exact hs
  | addPost now title body =>
    show (addPost now title body s).1.page ∈ PAGES
    unfold addPost
    simp only
    split_ifs <;> exact hs
  | likePost id => exact hs
  | addIdea now title =>
    show (addIdea now title s).1.page ∈ PAGES
    unfold addIdea
    simp only
    split_ifs <;> exact hs
  | voteIdea id => exact hs
  | addToCart pid => exact hs
  | removeFromCart pid => exact hs

theorem reachable_page (s : State) (h : Reachable s) : s.page ∈ PAGES := by
  induction h with
  | init => decide
  | step a s ha _ ih => exact step_page a s ha ih

theorem page_ne_empty (k : String) (h : k ∈ PAGES) : k ≠ "" := by
  intro e
  subst e
  revert h
  decide

/-- C10: persistence round trip: for every snapshot `S` reachable from the initial
state, loading the record that `save` writes for `S` restores `S`, field for field;
no field is replaced by its default, be it an empty cart, enrollment map, badge set
or display name, or zero points. -/
theorem load_save_reachable (S : State) (h : Reachable S) :
    load (save S) initialState = some S :=
  load_save_of_page_ne S initialState (page_ne_empty S.page (reachable_page S h))

theorem load_save_reachable_witness :
    Reachable (setDisplayName "" initialState) ∧
    (setDisplayName "" initialState).cart = [] ∧
    (setDisplayName "" initialState).enrolled = [] ∧
    (setDisplayName "" initialState).profile = { name := "", points := 0, badges := [] } ∧
    load (save (setDisplayName "" initialState)) initialState =
      some (setDisplayName "" initialState) :=
  ⟨Reachable.step (.setDisplayName "") initialState rfl Reachable.init, rfl, rfl, rfl,
    load_save_reachable (setDisplayName "" initialState)
      (Reachable.step (.setDisplayName "") initialState rfl Reachable.init)⟩

/-! ## Loading -/

theorem truthyField_of_not_obj (v : JVal) (k : String) (h : ∀ kvs, v ≠ .obj kvs) :
    truthyField v k = none := by
  cases v with
  | obj kvs => exact absurd rfl (h kvs)
  | null => rfl
  | bool b => rfl
  | num n => rfl
  | str s => rfl
  | arr xs => rfl

theorem load_of_no_truthy_field (v : JVal)
    (h : ∀ k ∈ ["page", "profile", "enrolled", "posts", "ideas", "cart"], truthyField v k = none) :
    load (.json v) initialState = some initialState := by
  have hpage := h "page" (by simp)
  have hprofile := h "profile" (by simp)
  have henrolled := h "enrolled" (by simp)
  have hposts := h "posts" (by simp)
  have hideas := h "ideas" (by simp)
  have hcart := h "cart" (by simp)
  by_cases ht : jsTruthy v = true
  · simp [load, ht, loadField, hpage, hprofile, henrolled, hposts, hideas, hcart, initialState]
  · simp [load, ht]

/-- C11, as the code has it: when the slot is missing or holds the empty text, when
its text is one `JSON.parse` throws on, or when it parses to a value none of whose
six fields is truthy (so to `null`, a boolean, a number, a text, an array, or an
object without them), `load` returns, and the state is exactly the default
snapshot: page home, name "Guest Maker", 0 points, no badges, no enrollments,
`SAMPLE_POSTS`, `SAMPLE_IDEAS` and an empty cart. -/
theorem load_absent_default :
    load .missing initialState = some initialState ∧
    load .empty initialState = some initialState ∧
    load .malformed initialState = some initialState ∧
    (∀ v : JVal, (∀ kvs, v ≠ .obj kvs) → load (.json v) initialState = some initialState) ∧
    (∀ v : JVal,
      (∀ k ∈ ["page", "profile", "enrolled", "posts", "ideas", "cart"],
        truthyField v k = none) →
      load (.json v) initialState = some initialState) ∧
    initialState =
      { page := "home", profile := { name := "Guest Maker", points := 0, badges := [] },
        enrolled := [], posts := SAMPLE_POSTS, ideas := SAMPLE_IDEAS, cart := [] } :=
  ⟨rfl, rfl, rfl,
    fun v hv => load_of_no_truthy_field v (fun k _ => truthyField_of_not_obj v k hv),
    load_of_no_truthy_field, rfl⟩

/-- A record that is no snapshot may still load to a state other than the default:
a record that kept only its page is loaded with that page, and a record whose cart
is the number 7 is taken over as it is, a value no state of the model expresses. -/
theorem load_corrupt_record_not_default :
    load (.json (.obj [("page", .str "shop")])) initialState =
      some { initialState with page := "shop" } ∧
    load (.json (.obj [("page", .str "shop")])) initialState ≠ some initialState ∧
    load (.json (.obj [("cart", .num 7)])) initialState = none ∧
    load (.json (.obj [("cart", .num 7)])) initialState ≠ some initialState := by
  refine ⟨by decide, by decide, by decide, by decide⟩

/-! ## Ids outside their domain -/

theorem map_eq_self_of_forall {α : Type} (f : α → α) (l : List α) (h : ∀ a ∈ l, f a = a) :
    l.map f = l := by
  induction l with
  | nil => rfl
  | cons a l ih =>
    rw [List.map_cons, h a (List.mem_cons_self a l),
      ih (fun b hb => h b (List.mem_cons_of_mem a hb))]

theorem find_course_none (id : String) (h : ∀ c ∈ SAMPLE_COURSES, c.id ≠ id) :
    SAMPLE_COURSES.find? (fun c => c.id = id) = none := by
  rw [List.find?_eq_none]
  intro c hc
  simpa using h c hc

/-- C12, as the code has it: `likePost` with the id of no post, `voteIdea` with the id
of no idea and `removeFromCart` with the id of no cart line return the state they
were given.  The other two are not no-ops.  `toggleEnroll` with an id that is not in
the course catalog adds no points and leaves name, page, posts, ideas and cart
alone.  When that id names no inherited property, it flips the enrollment record of
the id, creating it first when it is missing, leaves the records of other ids as
they were, and grants the badge `firstCourse` when the record becomes done (the
profile stays as it was when the record becomes not done).  When the id names an
inherited property and has no record, no record is created and the enrollment map
stays as it was.  `addToCart` does not look at the product catalog: for every id,
known or not, it puts a line with quantity 1 at the end of a cart that has no line
for it, raises the quantity of the lines the cart has for it by 1, grants the badge
`shopper` and, the points being non-negative, adds 5 points. -/
theorem unknown_id_effects (s : State) (id : String) :
    ((∀ p ∈ s.posts, p.id ≠ id) → likePost id s = s) ∧
    ((∀ i ∈ s.ideas, i.id ≠ id) → voteIdea id s = s) ∧
    ((∀ c ∈ s.cart, c.id ≠ id) → removeFromCart id s = s) ∧
    ((∀ c ∈ SAMPLE_COURSES, c.id ≠ id) → id ∉ OBJECT_PROTOTYPE_KEYS →
      (toggleEnroll id s).profile.points = s.profile.points ∧
      (toggleEnroll id s).profile.name = s.profile.name ∧
      (toggleEnroll id s).page = s.page ∧
      (toggleEnroll id s).posts = s.posts ∧
      (toggleEnroll id s).ideas = s.ideas ∧
      (toggleEnroll id s).cart = s.cart ∧
      objGet (toggleEnroll id s).enrolled id =
        some { done := !((objGet s.enrolled id).getD { done := false }).done } ∧
      (∀ j, j ≠ id → objGet (toggleEnroll id s).enrolled j = objGet s.enrolled j) ∧
      (((objGet s.enrolled id).getD { done := false }).done = false →
        (toggleEnroll id s).profile = awardBadge "firstCourse" s.profile) ∧
      (((objGet s.enrolled id).getD { done := false }).done = true →
        (toggleEnroll id s).profile = s.profile)) ∧
    (id ∈ OBJECT_PROTOTYPE_KEYS → objGet s.enrolled id = none →
      (toggleEnroll id s).enrolled = s.enrolled ∧
      (toggleEnroll id s).profile.points = s.profile.points ∧
      (toggleEnroll id s).profile.name = s.profile.name ∧
      (toggleEnroll id s).page = s.page ∧
      (toggleEnroll id s).posts = s.posts ∧
      (toggleEnroll id s).ideas = s.ideas ∧
      (toggleEnroll id s).cart = s.cart) ∧
    (((∀ c ∈ s.cart, c.id ≠ id) → (addToCart id s).cart = s.cart ++ [{ id := id, qty := 1 }]) ∧
      ((∃ c ∈ s.cart, c.id = id) →
        (addToCart id s).cart =
          s.cart.map (fun c => if c.id = id then { c with qty := c.qty + 1 } else c)) ∧
      (0 ≤ s.profile.points → (addToCart id s).profile.points = s.profile.points + 5) ∧
      objGet (addToCart id s).profile.badges "shopper" = some true) := by
  refine ⟨?_, ?_, ?_, ?_, ?_, ?_, ?_, ?_, awardBadge_grants _ _⟩
  · intro h
    have : s.posts.map (fun p => if p.id = id then { p with likes := p.likes + 1 } else p) =
        s.posts := map_eq_self_of_forall _ _ (fun p hp => by simp [h p hp])
    show { s with posts := s.posts.map _ } = s
    rw [this]
  · intro h
    have : s.ideas.map (fun it => if it.id = id then { it with votes := it.votes + 1 } else it) =
        s.ideas := map_eq_self_of_forall _ _ (fun p hp => by simp [h p hp])
    show { s with ideas := s.ideas.map _ } = s
    rw [this]
  · intro h
    have : s.cart.filter (fun c => c.id ≠ id) = s.cart := by
      rw [List.filter_eq_self]
      intro c hc
      simpa using h c hc
    show { s with cart := s.cart.filter (fun c => c.id ≠ id) } = s
    rw [this]
  · intro h hown
    have hfind := find_course_none id h
    obtain ⟨henr, hprofile⟩ := toggleEnroll_own id s hown
    rw [hfind] at hprofile
    have hflip : (!((objGet (if (objGet s.enrolled id).isNone then
              objSet s.enrolled id { done := false } else s.enrolled) id).getD
                { done := false }).done) =
        !((objGet s.enrolled id).getD { done := false }).done := by
      cases hg : objGet s.enrolled id with
      | none => simp [objGet_objSet_self]
      | some r => simp [hg]
    rw [hflip] at henr hprofile
    refine ⟨?_, ?_, rfl, rfl, rfl, rfl, ?_, ?_, ?_, ?_⟩
    · rw [hprofile]; split_ifs <;> rfl
    · rw [hprofile]; split_ifs <;> rfl
    · rw [henr, objGet_objSet_self]
    · intro j hj
      rw [henr, objGet_objSet_of_ne _ _ _ _ hj]
      cases hg : objGet s.enrolled id with
      | none => simp [objGet_objSet_of_ne _ _ _ _ hj]
      | some r => simp
    · intro hd
      rw [hprofile, hd]
      rfl
    · intro hd
      rw [hprofile, hd]
      rfl
  · intro hmem hnone
    have hfind : SAMPLE_COURSES.find? (fun c => c.id = id) = none := by
      apply find_course_none
      intro c hc he
      exact course_id_own c hc (he ▸ hmem)
    have hst : toggleEnroll id s = { s with profile := awardBadge "firstCourse" s.profile } := by
      simp [toggleEnroll, hnone, hmem, hfind]
    rw [hst]
    exact ⟨rfl, rfl, rfl, rfl, rfl, rfl, rfl⟩
  · intro h
    exact cartAdd_of_not_mem id s.cart h
  · intro h
    exact cartAdd_of_mem id s.cart h
  · intro hp
    show (awardBadge "shopper" (addPoints 5 s.profile)).points = _
    exact addPoints_of_nonneg 5 s.profile (by decide) hp

theorem unknown_id_effects_witness :
    likePost "zz" initialState = initialState ∧
    voteIdea "zz" initialState = initialState ∧
    removeFromCart "zz" initialState = initialState ∧
    (toggleEnroll "zz" initialState).profile.points = 0 ∧
    objGet (toggleEnroll "zz" initialState).enrolled "zz" = some { done := true } ∧
    (toggleEnroll "zz" initialState).profile = awardBadge "firstCourse" initialState.profile ∧
    (toggleEnroll "constructor" initialState).enrolled = [] ∧
    (addToCart "zz" initialState).cart = [{ id := "zz", qty := 1 }] ∧
    (addToCart "zz" initialState).profile.points = 5 :=
  have h := unknown_id_effects initialState "zz"
  have hc := unknown_id_effects initialState "constructor"
  have ht := h.2.2.2.1 (by decide) (by decide)
  ⟨h.1 (by decide), h.2.1 (by decide), h.2.2.1 (by decide),
    ht.1, ht.2.2.2.2.2.2.1, ht.2.2.2.2.2.2.2.2.1 (by decide),
    (hc.2.2.2.2.1 (by decide) (by decide)).1,
    h.2.2.2.2.2.1 (by decide), h.2.2.2.2.2.2.2.1 (by decide)⟩

/-- An id outside the catalogs is not ignored: from the initial state,
`toggleEnroll("zz")` enrolls the unknown course as done and `addToCart("zz")` puts
the unknown product in the cart and awards 5 points. -/
theorem unknown_id_not_noop :
    (∀ c ∈ SAMPLE_COURSES, c.id ≠ "zz") ∧ (∀ p ∈ SAMPLE_PRODUCTS, p.id ≠ "zz") ∧
    toggleEnroll "zz" initialState ≠ initialState ∧
    (toggleEnroll "zz" initialState).enrolled = [("zz", { done := true })] ∧
    addToCart "zz" initialState ≠ initialState ∧
    (addToCart "zz" initialState).cart = [{ id := "zz", qty := 1 }] ∧
    (addToCart "zz" initialState).profile.points = 5 := by
  refine ⟨by decide, by decide, by decide, by decide, by decide, by decide, by decide⟩

/-! ## Ids made from the clock -/

theorem digitChar_value (k : Nat) (h : k < 10) : (Nat.digitChar k).toNat - 48 = k := by
  interval_cases k <;> rfl

theorem digitChar_ne_minus (k : Nat) (h : k < 10) : Nat.digitChar k ≠ '-' := by
  interval_cases k <;> decide

theorem digitsValue_toDigitsCore (fuel : Nat) :
    ∀ (n : Nat) (ds : List Char), n < fuel →
      digitsValue 0 (Nat.toDigitsCore 10 fuel n ds) = digitsValue n ds := by
  induction fuel with
  | zero => intro n ds h; omega
  | succ fuel ih =>
    intro n ds h
    have hd := digitChar_value (n % 10) (Nat.mod_lt n (by decide))
    unfold Nat.toDigitsCore
    simp only
    split_ifs with h0
    · have hn : n % 10 = n := Nat.mod_eq_of_lt (by omega)
      rw [hn] at hd
      simp only [digitsValue, List.foldl_cons, hd, hn, Nat.zero_mul, Nat.zero_add]
    · rw [ih (n / 10) _ (by omega)]
      simp only [digitsValue, List.foldl_cons, hd]
      congr 1
      omega

theorem toDigitsCore_head (fuel : Nat) :
    ∀ (n : Nat) (ds : List Char),
      ∃ k, k < 10 ∧ ∃ tl, Nat.toDigitsCore 10 (fuel + 1) n ds = Nat.digitChar k :: tl := by
  induction fuel with
  | zero =>
    intro n ds
    refine ⟨n % 10, Nat.mod_lt n (by decide), ds, ?_⟩
    simp [Nat.toDigitsCore]
  | succ fuel ih =>
    intro n ds
    unfold Nat.toDigitsCore
    simp only
    split_ifs with h0
    · exact ⟨n % 10, Nat.mod_lt n (by decide), ds, rfl⟩
    · exact ih (n / 10) _

theorem natRepr_injective (a b : Nat) (h : Nat.repr a = Nat.repr b) : a = b := by
  have hl : Nat.toDigits 10 a = Nat.toDigits 10 b := by
    have := congrArg String.data h
    simpa [Nat.repr, List.asString] using this
  have ha := digitsValue_toDigitsCore (a + 1) a [] (by omega)
  have hb := digitsValue_toDigitsCore (b + 1) b [] (by omega)
  unfold Nat.toDigits at hl
  rw [hl, hb] at ha
  simpa [digitsValue] using ha.symm

theorem natRepr_head (a : Nat) : ∃ k, k < 10 ∧ ∃ tl, (Nat.repr a).data = Nat.digitChar k :: tl := by
  obtain ⟨k, hk, tl, h⟩ := toDigitsCore_head a a []
  exact ⟨k, hk, tl, by simpa [Nat.repr, Nat.toDigits, List.asString] using h⟩

theorem intToString_injective (a b : Int) (h : toString a = toString b) : a = b := by
  cases a with
  | ofNat m =>
    cases b with
    | ofNat k =>
      have : Nat.repr m = Nat.repr k := h
      rw [natRepr_injective m k this]
    | negSucc k =>
      exfalso
      have h2 : Nat.repr m = "-" ++ Nat.repr (k + 1) := h
      obtain ⟨d, hd, tl, hm⟩ := natRepr_head m
      have := congrArg String.data h2
      rw [hm, String.data_append] at this
      have hc : Nat.digitChar d = '-' := by
        have := congrArg List.head? this
        simpa using this
      exact digitChar_ne_minus d hd hc
  | negSucc m =>
    cases b with
    | ofNat k =>
      exfalso
      have h2 : "-" ++ Nat.repr (m + 1) = Nat.repr k := h
      obtain ⟨d, hd, tl, hm⟩ := natRepr_head k
      have := congrArg String.data h2
      rw [hm, String.data_append] at this
      have hc : '-' = Nat.digitChar d := by
        have := congrArg List.head? this
        simpa using this
      exact digitChar_ne_minus d hd hc.symm
    | negSucc k =>
      have h2 : "-" ++ Nat.repr (m + 1) = "-" ++ Nat.repr (k + 1) := h
      have := congrArg String.data h2
      rw [String.data_append, String.data_append] at this
      have h3 : (Nat.repr (m + 1)).data = (Nat.repr (k + 1)).data := List.append_cancel_left this
      have h4 : Nat.repr (m + 1) = Nat.repr (k + 1) := String.ext h3
      have := natRepr_injective _ _ h4
      have hmk : m = k := by omega
      rw [hmk]

theorem idOfClock_injective (pre : String) (a b : Int)
    (h : pre ++ toString a = pre ++ toString b) : a = b := by
  have := congrArg String.data h
  rw [String.data_append, String.data_append] at this
  exact intToString_injective a b (String.ext (List.append_cancel_left this))

theorem idsFrom_weaken (pre : String) (base : List String) (c cs : List Int)
    (ids : List String) (h : IdsFrom pre base cs ids) : IdsFrom pre base (c ++ cs) ids := by
  refine ⟨h.1, fun x hx => ?_⟩
  rcases h.2 x hx with hb | ⟨n, hn, e⟩
  · exact Or.inl hb
  · exact Or.inr ⟨n, List.mem_append_right c hn, e⟩

theorem idsFrom_cons (pre : String) (base : List String) (now : Int) (cs : List Int)
    (ids : List String) (hbase : ∀ x ∈ base, ∃ m : Int, m ≤ 3 ∧ x = pre ++ toString m)
    (h : IdsFrom pre base cs ids) (hnew : now ∉ cs) (hgt : 3 < now) :
    IdsFrom pre base (now :: cs) ((pre ++ toString now) :: ids) := by
  refine ⟨List.nodup_cons.mpr ⟨?_, h.1⟩, fun x hx => ?_⟩
  · intro hmem
    rcases h.2 _ hmem with hb | ⟨n, hn, e⟩
    · obtain ⟨m, hm, e⟩ := hbase _ hb
      have := idOfClock_injective pre now m e
      omega
    · have := idOfClock_injective pre now n e
      exact hnew (this ▸ hn)
  · rcases List.mem_cons.mp hx with rfl | hx
    · exact Or.inr ⟨now, List.mem_cons_self _ _, rfl⟩
    · rcases h.2 x hx with hb | ⟨n, hn, e⟩
      · exact Or.inl hb
      · exact Or.inr ⟨n, List.mem_cons_of_mem _ hn, e⟩

theorem step_post_ids (a : Action) (s : State) :
    (step a s).posts.map (fun p => p.id) = s.posts.map (fun p => p.id) ∨
    ∃ now, a.clock = [now] ∧
      (step a s).posts.map (fun p => p.id) = ("f" ++ toString now) :: s.posts.map (fun p => p.id) := by
  cases a with
  | setPage key => exact Or.inl rfl
  | setDisplayName name => exact Or.inl rfl
  | toggleEnroll courseId => exact Or.inl rfl
  | handleQuiz ok => cases ok <;> exact Or.inl rfl
  | addPost now title body =>
    by_cases h : (decide (jsTrim title = "") || decide (jsTrim body = "")) = true
    · left
      simp only [step, addPost, h, if_true]
    · right
      refine ⟨now, rfl, ?_⟩
      simp [step, addPost, h]
  | likePost id =>
    left
    show (s.posts.map _).map _ = _
    rw [List.map_map]
    apply List.map_congr_left
    intro p _
    by_cases hp : p.id = id <;> simp [hp]
  | addIdea now title =>
    left
    show (addIdea now title s).1.posts.map _ = _
    unfold addIdea
    simp only
    split_ifs <;> rfl
  | voteIdea id => exact Or.inl rfl
  | addToCart pid => exact Or.inl rfl
  | removeFromCart pid => exact Or.inl rfl

theorem step_idea_ids (a : Action) (s : State) :
    (step a s).ideas.map (fun i => i.id) = s.ideas.map (fun i => i.id) ∨
    ∃ now, a.clock = [now] ∧
      (step a s).ideas.map (fun i => i.id) = ("i" ++ toString now) :: s.ideas.map (fun i => i.id) := by
  cases a with
  | setPage key => exact Or.inl rfl
  | setDisplayName name => exact Or.inl rfl
  | toggleEnroll courseId => exact Or.inl rfl
  | handleQuiz ok => cases ok <;> exact Or.inl rfl
  | addPost now title body =>
    left
    show (addPost now title body s).1.ideas.map _ = _
    unfold addPost
    simp only
    split_ifs <;> rfl
  | likePost id => exact Or.inl rfl
  | addIdea now title =>
    by_cases h : jsTrim title = ""
    · left
      simp only [step, addIdea, h, if_true]
    · right
      refine ⟨now, rfl, ?_⟩
      simp [step, addIdea, h]
  | voteIdea id =>
    left
    show (s.ideas.map _).map _ = _
    rw [List.map_map]
    apply List.map_congr_left
    intro p _
    by_cases hp : p.id = id <;> simp [hp]
  | addToCart pid => exact Or.inl rfl
  | removeFromCart pid => exact Or.inl rfl

theorem idsFrom_step (pre : String) (base : List String) (a : Action) (cs : List Int)
    (ids ids2 : List String) (hbase : ∀ x ∈ base, ∃ m : Int, m ≤ 3 ∧ x = pre ++ toString m)
    (hstep : ids2 = ids ∨ ∃ now, a.clock = [now] ∧ ids2 = (pre ++ toString now) :: ids)
    (hnd : (a.clock ++ cs).Nodup) (hgt : ∀ n ∈ a.clock ++ cs, 3 < n)
    (h : IdsFrom pre base cs ids) : IdsFrom pre base (a.clock ++ cs) ids2 := by
  rcases hstep with e | ⟨now, hc, e⟩
  · rw [e]
    exact idsFrom_weaken pre base a.clock cs ids h
  · rw [e, hc]
    rw [hc] at hnd hgt
    have hnd2 : (now :: cs).Nodup := hnd
    exact idsFrom_cons pre base now cs ids hbase h (List.nodup_cons.mp hnd2).1
      (hgt now (by simp))

theorem session_idsFrom (cs : List Int) (s : State) (h : Session cs s) :
    cs.Nodup → (∀ n ∈ cs, 3 < n) →
      IdsFrom "f" ["f1", "f2"] cs (s.posts.map (fun p => p.id)) ∧
      IdsFrom "i" ["i1", "i2", "i3"] cs (s.ideas.map (fun i => i.id)) := by
  induction h with
  | init =>
    intro _ _
    exact ⟨⟨by decide, fun x hx => Or.inl hx⟩, ⟨by decide, fun x hx => Or.inl hx⟩⟩
  | step a cs s _ ih =>
    intro hnd hgt
    have hnd0 : cs.Nodup := (List.nodup_append.mp hnd).2.1
    have hgt0 : ∀ n ∈ cs, 3 < n := fun n hn => hgt n (List.mem_append_right _ hn)
    obtain ⟨hp, hi⟩ := ih hnd0 hgt0
    constructor
    · refine idsFrom_step "f" _ a cs _ _ ?_ (step_post_ids a s) hnd hgt hp
      intro x hx
      simp only [List.mem_cons, List.mem_singleton, List.not_mem_nil, or_false] at hx
      rcases hx with rfl | rfl
      · exact ⟨1, by decide, by decide⟩
      · exact ⟨2, by decide, by decide⟩
    · refine idsFrom_step "i" _ a cs _ _ ?_ (step_idea_ids a s) hnd hgt hi
      intro x hx
      simp only [List.mem_cons, List.mem_singleton, List.not_mem_nil, or_false] at hx
      rcases hx with rfl | rfl | rfl
      · exact ⟨1, by decide, by decide⟩
      · exact ⟨2, by decide, by decide⟩
      · exact ⟨3, by decide, by decide⟩

theorem reachable_session (s : State) (h : Reachable s) : ∃ cs, Session cs s := by
  induction h with
  | init => exact ⟨[], Session.init⟩
  | step a s _ _ ih =>
    obtain ⟨cs, hcs⟩ := ih
    exact ⟨a.clock ++ cs, Session.step a cs s hcs⟩

/-- C13, as the code has it: the id of a new post is "f", and the id of a new idea
"i", followed by the reading of the clock in decimal, and two readings give the same
id only when they are equal.  So in every state a session reaches from the initial
state with clock readings that differ from one another and are greater than 3 (the
sample ids are f1, f2, i1, i2, i3), no two posts share an id and no two ideas share
an id. -/
theorem session_ids_unique (cs : List Int) (s : State) (h : Session cs s)
    (hnd : cs.Nodup) (hgt : ∀ n ∈ cs, 3 < n) :
    (s.posts.map (fun p => p.id)).Nodup ∧
    (s.ideas.map (fun i => i.id)).Nodup ∧
    (∀ (now : Int) (title body : String), jsTrim title ≠ "" → jsTrim body ≠ "" →
      (addPost now title body s).1.posts.map (fun p => p.id) =
        ("f" ++ toString now) :: s.posts.map (fun p => p.id)) ∧
    (∀ (now : Int) (title : String), jsTrim title ≠ "" →
      (addIdea now title s).1.ideas.map (fun i => i.id) =
        ("i" ++ toString now) :: s.ideas.map (fun i => i.id)) ∧
    (∀ a b : Int, "f" ++ toString a = "f" ++ toString b → a = b) ∧
    (∀ a b : Int, "i" ++ toString a = "i" ++ toString b → a = b) := by
  obtain ⟨hp, hi⟩ := session_idsFrom cs s h hnd hgt
  refine ⟨hp.1, hi.1, ?_, ?_, idOfClock_injective "f", idOfClock_injective "i"⟩
  · intro now title body ht hb
    simp [addPost, ht, hb]
  · intro now title ht
    simp [addIdea, ht]

theorem session_ids_unique_witness :
    ((step (.addIdea 1700000000001 "I")
      (step (.addPost 1700000000000 "T" "B") initialState)).posts.map (fun p => p.id)).Nodup ∧
    ((step (.addIdea 1700000000001 "I")
      (step (.addPost 1700000000000 "T" "B") initialState)).ideas.map (fun i => i.id)).Nodup :=
  have h := session_ids_unique [1700000000001, 1700000000000]
    (step (.addIdea 1700000000001 "I") (step (.addPost 1700000000000 "T" "B") initialState))
    (Session.step (.addIdea 1700000000001 "I") [1700000000000] _
      (Session.step (.addPost 1700000000000 "T" "B") [] initialState Session.init))
    (by decide) (by decide)
  ⟨h.1, h.2.1⟩

/-- Two posts made at the same reading of the clock share their id, and so do two
ideas: the state is reachable and its ids are not distinct. -/
theorem same_clock_shares_id :
    Reachable (step (.addPost 1700000000000 "T2" "B2")
      (step (.addPost 1700000000000 "T" "B") initialState)) ∧
    ¬ ((step (.addPost 1700000000000 "T2" "B2")
      (step (.addPost 1700000000000 "T" "B") initialState)).posts.map (fun p => p.id)).Nodup ∧
    Reachable (step (.addIdea 1700000000000 "I2")
      (step (.addIdea 1700000000000 "I") initialState)) ∧
    ¬ ((step (.addIdea 1700000000000 "I2")
      (step (.addIdea 1700000000000 "I") initialState)).ideas.map (fun i => i.id)).Nodup :=
  ⟨Reachable.step _ _ rfl (Reachable.step _ _ rfl Reachable.init), by decide,
    Reachable.step _ _ rfl (Reachable.step _ _ rfl Reachable.init), by decide⟩

/-! ## Points never go down -/

theorem addPoints_nonneg (n : Int) (p : Profile) : 0 ≤ (addPoints n p).points :=
  le_max_left 0 _

theorem le_addPoints (n : Int) (p : Profile) (hn : 0 ≤ n) : p.points ≤ (addPoints n p).points :=
  le_max_of_le_right (by omega)

theorem found_course_points_nonneg (id : String) (c : Course)
    (h : SAMPLE_COURSES.find? (fun x => x.id = id) = some c) : 0 ≤ c.points := by
  have hm := List.mem_of_find?_eq_some h
  simp only [SAMPLE_COURSES, List.mem_cons, List.mem_singleton, List.not_mem_nil,
    or_false] at hm
  rcases hm with rfl | rfl | rfl | rfl <;> decide

theorem toggleEnroll_points (id : String) (s : State) :
    (toggleEnroll id s).profile.points = s.profile.points ∨
    ∃ n : Int, 0 ≤ n ∧ (toggleEnroll id s).profile.points = (addPoints n s.profile).points := by
  unfold toggleEnroll
  simp only
  split_ifs
  · cases hf : SAMPLE_COURSES.find? (fun c => c.id = id) with
    | none => exact Or.inl rfl
    | some c => exact Or.inr ⟨c.points, found_course_points_nonneg id c hf, rfl⟩
  · exact Or.inl rfl
  · cases hf : SAMPLE_COURSES.find? (fun c => c.id = id) with
    | none => exact Or.inl rfl
    | some c => exact Or.inr ⟨c.points, found_course_points_nonneg id c hf, rfl⟩
  · exact Or.inl rfl

theorem step_points (a : Action) (s : State) :
    (step a s).profile.points = s.profile.points ∨
    ∃ n : Int, 0 ≤ n ∧ (step a s).profile.points = (addPoints n s.profile).points := by
  cases a with
  | setPage key => exact Or.inl rfl
  | setDisplayName name => exact Or.inl rfl
  | toggleEnroll courseId => exact toggleEnroll_points courseId s
  | handleQuiz ok =>
    cases ok
    · exact Or.inl rfl
    · exact Or.inr ⟨50, by decide, rfl⟩
  | addPost now title body =>
    by_cases h : (decide (jsTrim title = "") || decide (jsTrim body = "")) = true
    · left
      simp only [step, addPost, h, if_true]
    · right
      refine ⟨20, by decide, ?_⟩
      simp [step, addPost, h, awardBadge]
  | likePost id => exact Or.inl rfl
  | addIdea now title =>
    by_cases h : jsTrim title = ""
    · left
      simp only [step, addIdea, h, if_true]
    · right
      refine ⟨25, by decide, ?_⟩
      simp [step, addIdea, h, awardBadge]
  | voteIdea id => exact Or.inl rfl
  | addToCart pid => exact Or.inr ⟨5, by decide, rfl⟩
  | removeFromCart pid => exact Or.inl rfl

/-- C14: `points ≥ 0` is an invariant of the store: it holds in the initial state, is
preserved by every operation and so holds in every reachable state; every award
goes through `addPoints`, whose result is never negative; and no operation lowers
the points. -/
theorem points_invariant :
    0 ≤ initialState.profile.points ∧
    (∀ (n : Int) (p : Profile), 0 ≤ (addPoints n p).points) ∧
    (∀ (a : Action) (s : State), 0 ≤ s.profile.points → 0 ≤ (step a s).profile.points) ∧
    (∀ (a : Action) (s : State), s.profile.points ≤ (step a s).profile.points) ∧
    (∀ s : State, Reachable s → 0 ≤ s.profile.points) := by
  have hpres : ∀ (a : Action) (s : State), 0 ≤ s.profile.points →
      0 ≤ (step a s).profile.points := by
    intro a s hs
    rcases step_points a s with e | ⟨n, _, e⟩
    · rw [e]; exact hs
    · rw [e]; exact addPoints_nonneg n s.profile
  refine ⟨by decide, addPoints_nonneg, hpres, ?_, ?_⟩
  · intro a s
    rcases step_points a s with e | ⟨n, hn, e⟩
    · rw [e]
    · rw [e]; exact le_addPoints n s.profile hn
  · intro s hs
    induction hs with
    | init => decide
    | step a s _ _ ih => exact hpres a s ih

/-! ## Badges -/

theorem any_key_of_mem {α : Type} (o : List (String × α)) (k : String)
    (h : k ∈ o.map (fun e => e.1)) : o.any (fun e => e.1 = k) = true := by
  obtain ⟨e, he, hk⟩ := List.mem_map.mp h
  rw [List.any_eq_true]
  exact ⟨e, he, by simpa using hk⟩

theorem any_key_false_of_not_mem {α : Type} (o : List (String × α)) (k : String)
    (h : k ∉ o.map (fun e => e.1)) : o.any (fun e => e.1 = k) = false := by
  rw [Bool.eq_false_iff]
  intro ht
  rw [List.any_eq_true] at ht
  obtain ⟨e, he, hk⟩ := ht
  exact h (List.mem_map.mpr ⟨e, he, by simpa using hk⟩)

theorem keys_map_replace {α : Type} (o : List (String × α)) (k : String) (v : α) :
    (o.map (fun e => if e.1 = k then (k, v) else e)).map (fun e => e.1) =
      o.map (fun e => e.1) := by
  rw [List.map_map]
  apply List.map_congr_left
  intro e _
  by_cases he : e.1 = k <;> simp [he]

theorem keys_objSet_of_mem {α : Type} (o : List (String × α)) (k : String) (v : α)
    (h : k ∈ o.map (fun e => e.1)) :
    (objSet o k v).map (fun e => e.1) = o.map (fun e => e.1) := by
  unfold objSet
  rw [any_key_of_mem o k h, if_pos rfl]
  exact keys_map_replace o k v

theorem mem_keys_objSet {α : Type} (o : List (String × α)) (k : String) (v : α) :
    k ∈ (objSet o k v).map (fun e => e.1) := by
  unfold objSet
  by_cases h : k ∈ o.map (fun e => e.1)
  · rw [any_key_of_mem o k h, if_pos rfl, keys_map_replace]
    exact h
  · rw [any_key_false_of_not_mem o k h]
    simp

theorem keys_subset_objSet {α : Type} (o : List (String × α)) (k : String) (v : α)
    (j : String) (hj : j ∈ o.map (fun e => e.1)) : j ∈ (objSet o k v).map (fun e => e.1) := by
  unfold objSet
  by_cases h : k ∈ o.map (fun e => e.1)
  · rw [any_key_of_mem o k h, if_pos rfl, keys_map_replace]
    exact hj
  · rw [any_key_false_of_not_mem o k h]
    simp only [Bool.false_eq_true, if_false, List.map_append, List.mem_append]
    exact Or.inl hj

theorem map_replace_idem {α : Type} (o : List (String × α)) (k : String) (v : α) :
    (o.map (fun e => if e.1 = k then (k, v) else e)).map
        (fun e => if e.1 = k then (k, v) else e) =
      o.map (fun e => if e.1 = k then (k, v) else e) := by
  rw [List.map_map]
  apply List.map_congr_left
  intro e _
  by_cases he : e.1 = k <;> simp [he]

theorem objSet_of_mem {α : Type} (o : List (String × α)) (k : String) (v : α)
    (h : k ∈ o.map (fun e => e.1)) :
    objSet o k v = o.map (fun e => if e.1 = k then (k, v) else e) := by
  unfold objSet
  rw [any_key_of_mem o k h, if_pos rfl]

theorem objSet_of_not_mem {α : Type} (o : List (String × α)) (k : String) (v : α)
    (h : k ∉ o.map (fun e => e.1)) : objSet o k v = o ++ [(k, v)] := by
  unfold objSet
  rw [any_key_false_of_not_mem o k h]
  simp

theorem objSet_idem {α : Type} (o : List (String × α)) (k : String) (v : α) :
    objSet (objSet o k v) k v = objSet o k v := by
  rw [objSet_of_mem (objSet o k v) k v (mem_keys_objSet o k v)]
  by_cases h : k ∈ o.map (fun e => e.1)
  · rw [objSet_of_mem o k v h]
    exact map_replace_idem o k v
  · rw [objSet_of_not_mem o k v h]
    simp only [List.map_append, List.map_cons, List.map_nil, if_true]
    congr 1
    apply map_eq_self_of_forall
    intro e he
    have : ¬ e.1 = k := fun hk => h (List.mem_map.mpr ⟨e, he, hk⟩)
    simp [this]

theorem objSet_eq_self_of_held (o : List (String × Bool)) (k : String)
    (hnd : (o.map (fun e => e.1)).Nodup) (h : objGet o k = some true) :
    objSet o k true = o := by
  induction o with
  | nil => simp [objGet_nil] at h
  | cons e o ih =>
    have hnd2 : e.1 ∉ o.map (fun e => e.1) ∧ (o.map (fun e => e.1)).Nodup := by
      simpa using hnd
    rw [objGet_cons] at h
    unfold objSet
    by_cases he : e.1 = k
    · rw [if_pos he] at h
      have hv : e.2 = true := by simpa using h
      have hany : (e :: o).any (fun x => x.1 = k) = true := by simp [he]
      rw [hany, if_pos rfl, List.map_cons, if_pos he]
      have he2 : (k, true) = e := by
        rw [← he, ← hv]
      rw [he2]
      congr 1
      apply map_eq_self_of_forall
      intro x hx
      have : ¬ x.1 = k := fun hk => hnd2.1 (List.mem_map.mpr ⟨x, hx, hk.trans he.symm⟩)
      simp [this]
    · rw [if_neg he] at h
      have hmem : k ∈ o.map (fun e => e.1) := by
        unfold objGet at h
        cases hf : o.find? (fun x => x.1 = k) with
        | none => simp [hf] at h
        | some x =>
          have h1 := List.find?_some hf
          have h2 := List.mem_of_find?_eq_some hf
          exact List.mem_map.mpr ⟨x, h2, by simpa using h1⟩
      have hany : (e :: o).any (fun x => x.1 = k) = true := by
        rw [List.any_cons, any_key_of_mem o k hmem]
        simp
      rw [hany, if_pos rfl, List.map_cons, if_neg he]
      congr 1
      have := ih hnd2.2 h
      unfold objSet at this
      rw [any_key_of_mem o k hmem, if_pos rfl] at this
      exact this

/-- C15: badge awards are idempotent: for every profile and badge key `k`,
`awardBadge(k)` on a profile that already holds `k` leaves the owned keys, and so
their number, unchanged (and the whole profile when `k` is held as `true`), so
awarding `k` twice equals awarding it once; `awardBadge` removes no badge and
changes neither name nor points. -/
theorem awardBadge_idempotent (k : String) (p : Profile) :
    (k ∈ ownedBadges p → ownedBadges (awardBadge k p) = ownedBadges p) ∧
    (k ∈ ownedBadges p → (ownedBadges (awardBadge k p)).length = (ownedBadges p).length) ∧
    ((ownedBadges p).Nodup → objGet p.badges k = some true → awardBadge k p = p) ∧
    awardBadge k (awardBadge k p) = awardBadge k p ∧
    (∀ j ∈ ownedBadges p, j ∈ ownedBadges (awardBadge k p)) ∧
    (∀ j, objGet p.badges j = some true → objGet (awardBadge k p).badges j = some true) ∧
    (awardBadge k p).name = p.name ∧ (awardBadge k p).points = p.points := by
  refine ⟨?_, ?_, ?_, ?_, ?_, ?_, rfl, rfl⟩
  · intro h
    exact keys_objSet_of_mem p.badges k true h
  · intro h
    show ((objSet p.badges k true).map (fun e => e.1)).length = _
    rw [keys_objSet_of_mem p.badges k true h]
    rfl
  · intro hnd h
    show { p with badges := objSet p.badges k true } = p
    rw [objSet_eq_self_of_held p.badges k hnd h]
  · show { (awardBadge k p) with badges := objSet (objSet p.badges k true) k true } =
      awardBadge k p
    rw [objSet_idem]
    rfl
  · intro j hj
    exact keys_subset_objSet p.badges k true j hj
  · intro j hj
    by_cases hjk : j = k
    · subst hjk
      exact objGet_objSet_self _ _ _
    · show objGet (objSet p.badges k true) j = some true
      rw [objGet_objSet_of_ne _ _ _ _ hjk]
      exact hj

theorem awardBadge_idempotent_witness :
    ownedBadges (awardBadge "helper" (awardBadge "helper" initialState.profile)) =
      ["helper"] ∧
    awardBadge "helper" (awardBadge "helper" initialState.profile) =
      awardBadge "helper" initialState.profile :=
  have h := awardBadge_idempotent "helper" (awardBadge "helper" initialState.profile)
  ⟨(h.1 (by decide)).trans (by decide), h.2.2.1 (by decide) (by decide)⟩

/-! ## Top of the ladder -/

theorem computeRank_top (points : Int) (h : 1200 ≤ points) :
    (computeRank points).current = { key := "visionary", name := "Visionary", threshold := 1200 } ∧
    (computeRank points).next = { key := "visionary", name := "Visionary", threshold := 1200 } := by
  have hc : (computeRank points).current =
      { key := "visionary", name := "Visionary", threshold := 1200 } := by
    rw [computeRank_current_eq, if_pos h]
  refine ⟨hc, ?_⟩
  rw [computeRank_next_eq, hc]
  decide

theorem jsRound_hundred : jsRound 100 = 100 := by
  unfold jsRound
  rw [Int.floor_eq_iff]
  constructor <;> norm_num

/-- C16, as the code has it: for every integer `points ≥ 1200`, `computeRank` returns
the last tier, visionary, both as `current` and as `next`, and works with a span of
1; for `points ≥ 1201` the progress percentage is 100. -/
theorem computeRank_top_capped (points : Int) (h : 1200 ≤ points) :
    (computeRank points).current.key = "visionary" ∧
    (computeRank points).next = (computeRank points).current ∧
    max 1 ((computeRank points).next.threshold - (computeRank points).current.threshold) = 1 ∧
    (1201 ≤ points → (computeRank points).pct = 100) := by
  obtain ⟨hc, hn⟩ := computeRank_top points h
  refine ⟨by rw [hc], by rw [hc, hn], by rw [hc, hn]; decide, ?_⟩
  intro h1
  rw [computeRank_pct_eq, hc, hn]
  apply min_eq_left
  have hone : fl ((1 : ℕ) : ℚ) = ((1 : ℕ) : ℚ) := fl_natCast 1 (by norm_num)
  have hhund : fl ((100 : ℕ) : ℚ) = ((100 : ℕ) : ℚ) := fl_natCast 100 (by norm_num)
  have hp : (1 : ℚ) ≤ (points : ℚ) - ((1200 : Int) : ℚ) := by
    have : ((1201 : Int) : ℚ) ≤ (points : ℚ) := by exact_mod_cast h1
    push_cast at this ⊢
    linarith
  have h2 : (1 : ℚ) ≤ fl ((points : ℚ) - ((1200 : Int) : ℚ)) := by
    have := fl_mono (by norm_num : (0 : ℚ) ≤ 1) hp
    rw [show (1 : ℚ) = ((1 : ℕ) : ℚ) by norm_num, hone] at this
    simpa using this
  have hspan : ((max 1 ((1200 : Int) - 1200) : Int) : ℚ) = 1 := by norm_num
  have h3 : (1 : ℚ) ≤ fl (fl ((points : ℚ) - ((1200 : Int) : ℚ)) /
      ((max 1 ((1200 : Int) - 1200) : Int) : ℚ)) := by
    rw [hspan, div_one]
    have := fl_mono (by norm_num : (0 : ℚ) ≤ 1) h2
    rw [show (1 : ℚ) = ((1 : ℕ) : ℚ) by norm_num, hone] at this
    simpa using this
  have h4 : (100 : ℚ) ≤ fl (fl (fl ((points : ℚ) - ((1200 : Int) : ℚ)) /
      ((max 1 ((1200 : Int) - 1200) : Int) : ℚ)) * 100) := by
    have hm : (100 : ℚ) ≤ fl (fl ((points : ℚ) - ((1200 : Int) : ℚ)) /
        ((max 1 ((1200 : Int) - 1200) : Int) : ℚ)) * 100 := by linarith
    have := fl_mono (by norm_num : (0 : ℚ) ≤ 100) hm
    rw [show (100 : ℚ) = ((100 : ℕ) : ℚ) by norm_num, hhund] at this
    simpa using this
  have h5 := jsRound_mono h4
  rw [jsRound_hundred] at h5
  exact h5

theorem computeRank_top_capped_witness :
    (1200 : Int) ≤ 1201 ∧
    (computeRank 1201).current.key = "visionary" ∧
    (computeRank 1201).next = (computeRank 1201).current ∧
    (computeRank 1201).pct = 100 :=
  have h := computeRank_top_capped 1201 (by decide)
  ⟨by decide, h.1, h.2.1, h.2.2.2 (by decide)⟩

/-- At exactly 1200 points the progress percentage is 0, not 100: `into` is 0, the
span is 1, and `Math.round(0 / 1 * 100)` is 0. -/
theorem computeRank_pct_1200 :
    (1200 : Int) ≤ 1200 ∧ (computeRank 1200).pct = 0 ∧ (computeRank 1200).pct ≠ 100 := by
  have hp : (computeRank 1200).pct = 0 := by
    obtain ⟨hc, hn⟩ := computeRank_top 1200 (by decide)
    rw [computeRank_pct_eq, hc, hn]
    have h0 : fl (((1200 : Int) : ℚ) - ((1200 : Int) : ℚ)) = 0 := by simp [fl]
    rw [h0]
    have h1 : fl ((0 : ℚ) / ((max 1 ((1200 : Int) - 1200) : Int) : ℚ)) = 0 := by simp [fl]
    rw [h1]
    have h2 : fl ((0 : ℚ) * 100) = 0 := by simp [fl]
    rw [h2]
    have h3 : jsRound 0 = 0 := by
      unfold jsRound
      rw [Int.floor_eq_iff]
      constructor <;> norm_num
    rw [h3]
    decide
  exact ⟨by decide, hp, by rw [hp]; decide⟩

end MakerHub
